import Mathlib

/-!
# Logo switcher (`logo-switcher.js`): embedding and verification

The script watches the page address, extracts a location identifier from it,
looks the identifier up in an ordered configuration list and either rewrites
the logo images of the page or restores their recorded defaults.

The embedding keeps the names of the source.  What the script takes from the
browser and does not define is an explicit input: the results of
`document.querySelectorAll`, the moments at which timers fire, and the
conversions the browser performs when a property of an image is assigned
(`Browser`).
-/

namespace LogoSwitcher

/-! ## Location resolver: `getLocationId` -/

/-- The character class `[a-zA-Z0-9]` of the pattern (no `i` flag, ASCII only). -/
def isAlnum (c : Char) : Bool :=
  ('a' ≤ c && c ≤ 'z') || ('A' ≤ c && c ≤ 'Z') || ('0' ≤ c && c ≤ '9')

/-- The literal `\/location\/` the pattern starts with. -/
def locationLiteral : List Char := "/location/".toList

/-- Matching a literal at the head of the input; the rest of the input on success. -/
def matchLiteral : List Char → List Char → Option (List Char)
  | [], s => some s
  | _ :: _, [] => none
  | p :: ps, c :: cs => if p = c then matchLiteral ps cs else none

/-- The final group `(?:\/|$|\?)` tried at the current position: the alternatives
`\/`, `$` (end of input, there is no `m` flag) and `\?`, in this order. -/
def matchTerminator : List Char → Bool
  | [] => true
  | c :: _ => c = '/' || c = '?'

/-- The capture group `([a-zA-Z0-9]+)` followed by the final group, run as a
backtracking matcher: one character of the class is consumed, then the greedy
quantifier first tries to consume more, and only when the continuation fails
with more characters does it try the final group right here.  The result is
the captured text. -/
def matchRun : List Char → Option (List Char)
  | [] => none
  | c :: cs =>
    if isAlnum c then
      match matchRun cs with
      | some r => some (c :: r)
      | none => if matchTerminator cs then some [c] else none
    else none

/-- The whole pattern tried at one start position. -/
def matchAt (s : List Char) : Option (List Char) :=
  match matchLiteral locationLiteral s with
  | some rest => matchRun rest
  | none => none

/-- The search of `String.prototype.match` with a non-global pattern: start
positions are tried from left to right, the first success wins; the value is
capture group 1 of the match (`match[1]`). -/
def regexMatch : List Char → Option (List Char)
  | [] => matchAt []
  | c :: cs =>
    match matchAt (c :: cs) with
    | some r => some r
    | none => regexMatch cs

/-- The function `getLocationId` applied to the address `window.location.href`:
`match ? match[1] : null`, with `null` as `none`.  Reading the address and
matching a pattern literal against a string do not throw, and the `catch`
branch returns `null` as well, so the function is total. -/
def getLocationId (url : String) : Option String :=
  match regexMatch url.toList with
  | some r => some (String.mk r)
  | none => none

/-! ## Data values of the host page -/

/-- A plain data value of the host page (no functions or accessors); `num`
stands for a number, of which only truthiness is ever examined. -/
inductive JSVal where
  | undefined
  | null
  | bool (b : Bool)
  | num (n : Int)
  | str (s : String)
  | arr (items : List JSVal)
  | obj (fields : List (String × JSVal))

/-- A thrown error. -/
inductive JSError where
  | typeError (message : String)
  deriving DecidableEq, Repr

/-- Truthiness of a value. -/
def JSVal.truthy : JSVal → Bool
  | .undefined => false
  | .null => false
  | .bool b => b
  | .num n => n ≠ 0
  | .str s => s ≠ ""
  | .arr _ => true
  | .obj _ => true

/-- The comparison `s === v` of a string with a value: only an equal string
is strictly equal to a string. -/
def JSVal.strictEqualsString : JSVal → String → Bool
  | .str u, s => u = s
  | _, _ => false

/-! ## Page model -/

/-- Identity of a DOM element. -/
abbrev ElemId := Nat

/-- The call `document.querySelectorAll(selector)` at one moment of the page:
the matched elements in document order. -/
abbrev Query := String → List ElemId

/-- The constant `GHL_LOGO_SELECTORS`. -/
def GHL_LOGO_SELECTORS : List String :=
  [ ".agency-logo-container img",
    ".hl_navbar--logo img",
    "nav img[src*=\"msgsndr\"]",
    "header img[src*=\"msgsndr\"]",
    "[data-testid=\"sidebar-logo\"] img",
    ".sidebar-logo img",
    "img[alt*=\"logo\" i]",
    "img[alt*=\"agency logo\"]" ]

/-- The function `findAllGhlLogos`: the pair is (`logos`, `seen`); an element
that is not in `seen` yet is added to `seen` and pushed onto `logos`. -/
def findAllGhlLogos (querySelectorAll : Query) : List ElemId :=
  (GHL_LOGO_SELECTORS.foldl
    (fun acc selector =>
      (querySelectorAll selector).foldl
        (fun (st : List ElemId × List ElemId) element =>
          if element ∈ st.2 then st else (st.1 ++ [element], element :: st.2))
        acc)
    (([] : List ElemId), ([] : List ElemId))).1

/-- The inline style of an image: the six properties the script writes, as
they read back (the empty string is an unset property), and the other
declarations the element carries. -/
structure Style where
  objectFit : String
  maxHeight : String
  maxWidth : String
  padding : String
  borderRadius : String
  display : String
  other : List (String × String)
  deriving DecidableEq, Repr

/-- The effect of `logoElement.style = ''`: every inline declaration is removed. -/
def Style.cleared : Style := ⟨"", "", "", "", "", "", []⟩

/-- The part of an image element the script reads and writes.  `src` is the
value the `src` property reads: the resolved, serialised URL of the image, or
the empty string for an image without a source.  `originalSrc` is
`dataset.originalSrc`, with `none` for `undefined` (no such data attribute). -/
structure LogoElement where
  src : String
  originalSrc : Option String
  style : Style
  deriving DecidableEq, Repr

/-- The elements of the page, by identity. -/
abbrev Dom := ElemId → LogoElement

/-- Truthiness of a value that is a string or `undefined`: `undefined` and the
empty string are falsy. -/
def truthy : Option String → Bool
  | none => false
  | some s => s ≠ ""

/-- The conversions of the browser the script relies on.  `resolveUrl u` is
what the `src` property reads after the string `u` has been assigned to it:
`u` parsed against the base address of the document and serialised (an
absolute, serialised URL reads back unchanged; a relative one does not).
`stringOf v` is the string a number, array or object is converted to where a
string is expected.  `resetLonghands` is what the assignment of the shorthand
properties `padding` and `borderRadius` leaves of the other inline
declarations of an element. -/
structure Browser where
  resolveUrl : String → String
  stringOf : JSVal → String
  resetLonghands : List (String × String) → List (String × String)

/-- The string a value is converted to when it is assigned to `src`. -/
def domString (b : Browser) : JSVal → String
  | .str s => s
  | .undefined => "undefined"
  | .null => "null"
  | .bool true => "true"
  | .bool false => "false"
  | v => b.stringOf v

/-! ## Logo applier -/

/-- The function `applyLogoStyles`: the element after the call and the returned
boolean.  `logoUrl` is whatever value the configuration entry carries.  With
plain data values none of the property accesses throws, so the `catch` branch
is not reached. -/
def applyLogoStyles (b : Browser) (logoElement : LogoElement) (logoUrl : JSVal) :
    LogoElement × Bool :=
  let el :=
    if !truthy logoElement.originalSrc then
      { logoElement with originalSrc := some logoElement.src }
    else logoElement
  if !logoUrl.strictEqualsString el.src then
    ({ el with
        src := b.resolveUrl (domString b logoUrl)
        style := { el.style with
          objectFit := "contain"
          maxHeight := "40px"
          maxWidth := "180px"
          padding := "4px"
          borderRadius := "4px"
          display := "block"
          other := b.resetLonghands el.style.other } }, true)
  else (el, false)

/-- The `forEach` of `attemptReplace`: `applyLogoStyles` on every found element
in order; the number is the counter `replaced`. -/
def applyToAll (b : Browser) (logoUrl : JSVal) (logoElements : List ElemId) (dom : Dom) :
    Dom × Nat :=
  logoElements.foldl
    (fun (st : Dom × Nat) id =>
      let r := applyLogoStyles b (st.1 id) logoUrl
      (Function.update st.1 id r.1, if r.2 then st.2 + 1 else st.2))
    (dom, 0)

/-- The body of the `forEach` of `restoreDefaultLogo` on one element: the
recorded string is assigned to `src`, the inline style is emptied. -/
def restoreElement (b : Browser) (logoElement : LogoElement) : LogoElement :=
  match logoElement.originalSrc with
  | some original =>
    if truthy (some original) then
      { logoElement with src := b.resolveUrl original, style := Style.cleared }
    else logoElement
  | none => logoElement

/-- The function `restoreDefaultLogo`. -/
def restoreDefaultLogo (b : Browser) (querySelectorAll : Query) (dom : Dom) : Dom :=
  (findAllGhlLogos querySelectorAll).foldl
    (fun d id => Function.update d id (restoreElement b (d id))) dom

/-- The constant `MAX_ATTEMPTS` of `replaceLogo`. -/
def MAX_ATTEMPTS : Nat := 8

/-- What one call of `attemptReplace` leaves behind: the page, the counter
`attempts`, whether a further call was scheduled with `setTimeout`, and the
returned boolean. -/
structure Attempt where
  dom : Dom
  attempts : Nat
  scheduled : Bool
  result : Bool

/-- One call of the inner function `attemptReplace` of `replaceLogo`. -/
def attemptReplace (b : Browser) (querySelectorAll : Query) (logoUrl : JSVal)
    (attempts : Nat) (dom : Dom) : Attempt :=
  let logoElements := findAllGhlLogos querySelectorAll
  if logoElements.length > 0 then
    ⟨(applyToAll b logoUrl logoElements dom).1, attempts, false, true⟩
  else if attempts < MAX_ATTEMPTS then
    ⟨dom, attempts + 1, true, false⟩
  else
    ⟨dom, attempts, false, false⟩

/-- The outcome of a whole chain of attempts: the page, the number of calls of
`attemptReplace` that ran, and whether the chain came to its end within the
given number of steps. -/
structure Run where
  dom : Dom
  calls : Nat
  finished : Bool

/-- The chain of calls of `attemptReplace` that one `replaceLogo` starts: call
number `k` sees the document `doc k` (calls are 500 ms apart and the host page
may have rendered in between); a scheduled call is run next.  `fuel` bounds
the number of calls that are followed. -/
def attemptLoop (b : Browser) (doc : Nat → Query) (logoUrl : JSVal) :
    (fuel : Nat) → (k : Nat) → (attempts : Nat) → Dom → Run
  | 0, _, _, dom => ⟨dom, 0, false⟩
  | fuel + 1, k, attempts, dom =>
    let a := attemptReplace b (doc k) logoUrl attempts dom
    if a.scheduled then
      let r := attemptLoop b doc logoUrl fuel (k + 1) a.attempts a.dom
      ⟨r.dom, r.calls + 1, r.finished⟩
    else ⟨a.dom, 1, true⟩

/-- The function `replaceLogo`: `attempts` starts at `0` and `attemptReplace`
is called; the retries it schedules are followed to the end (`name` is only
logged). -/
def replaceLogo (b : Browser) (logoUrl : JSVal) (_name : JSVal) (doc : Nat → Query)
    (dom : Dom) : Run :=
  attemptLoop b doc logoUrl (MAX_ATTEMPTS + 1) 0 0 dom

/-! ## Configuration and evaluation -/

/-- A well-formed entry of `window.LogoSwitcherConfig`. -/
structure ConfigEntry where
  name : String
  locationIds : List String
  logoURL : String
  deriving DecidableEq, Repr

/-- The method `Array.prototype.includes` on an array of strings. -/
def arrayIncludes : List String → String → Bool
  | [], _ => false
  | x :: xs, v => if x = v then true else arrayIncludes xs v

/-- The method `Array.prototype.find`: the first element the callback accepts. -/
def arrayFind {α : Type} (callback : α → Bool) : List α → Option α
  | [] => none
  | x :: xs => if callback x then some x else arrayFind callback xs

/-- The local `config` of `checkAndReplaceLogo`:
`LogoSwitcherConfig.find(entry => entry.locationIds.includes(newLocationId))`. -/
def findConfig (config : List ConfigEntry) (newLocationId : String) : Option ConfigEntry :=
  arrayFind (fun entry => arrayIncludes entry.locationIds newLocationId) config

/-- The state of the script with a well-formed configuration: the
configuration list, the variable `currentLocationId`, and the page. -/
structure State where
  config : List ConfigEntry
  currentLocationId : Option String
  dom : Dom

/-- The function `checkAndReplaceLogo` at the address `href` with a well-formed
configuration; `doc 0` is the document at the time of the call (`doc k` at the
k-th retry of `replaceLogo`).  A captured identifier is never empty, so
`!newLocationId` holds exactly for `null`. -/
def checkAndReplaceLogo (b : Browser) (href : String) (doc : Nat → Query) (s : State) :
    State :=
  match getLocationId href with
  | none => s
  | some newLocationId =>
    let dom :=
      match findConfig s.config newLocationId with
      | some config => (replaceLogo b (.str config.logoURL) (.str config.name) doc s.dom).dom
      | none => restoreDefaultLogo b (doc 0) s.dom
    { s with dom := dom, currentLocationId := some newLocationId }

/-! ## Evaluation on an arbitrary configuration value

The configuration is supplied by the host page, and the public functions
accept any value. -/

/-- Reading a data property such as `entry.locationIds`: reading from
`undefined` or `null` throws, an object yields its field or `undefined`,
every other value has no such property. -/
def JSVal.getProp (v : JSVal) (key : String) : Except JSError JSVal :=
  match v with
  | .undefined => .error (.typeError "Cannot read properties of undefined")
  | .null => .error (.typeError "Cannot read properties of null")
  | .obj fields => .ok ((fields.lookup key).getD .undefined)
  | _ => .ok .undefined

/-- The call `ids.includes(newLocationId)` with a string argument: arrays
compare their items with the argument, strings test for a substring, and on
every other value the call throws (no property to read from, or no callable
`includes`). -/
def callIncludes (ids : JSVal) (newLocationId : String) : Except JSError Bool :=
  match ids with
  | .undefined => .error (.typeError "Cannot read properties of undefined")
  | .null => .error (.typeError "Cannot read properties of null")
  | .arr items =>
    .ok (items.any fun item =>
      match item with
      | .str s => decide (s = newLocationId)
      | _ => false)
  | .str s => .ok (decide (newLocationId.toList <:+: s.toList))
  | _ => .error (.typeError "includes is not a function")

/-- The callback `entry => entry.locationIds.includes(newLocationId)`. -/
def entryIncludes (newLocationId : String) (entry : JSVal) : Except JSError Bool :=
  match entry.getProp "locationIds" with
  | .error e => .error e
  | .ok ids => callIncludes ids newLocationId

/-- The method `Array.prototype.find` with that callback; an error thrown by
the callback ends the search. -/
def arrayFindJS (newLocationId : String) : List JSVal → Except JSError (Option JSVal)
  | [] => .ok none
  | entry :: rest =>
    match entryIncludes newLocationId entry with
    | .error e => .error e
    | .ok true => .ok (some entry)
    | .ok false => arrayFindJS newLocationId rest

/-- The call `window.LogoSwitcherConfig.find(...)`: only an array has `find`. -/
def configFind (config : JSVal) (newLocationId : String) : Except JSError (Option JSVal) :=
  match config with
  | .arr items => arrayFindJS newLocationId items
  | .undefined => .error (.typeError "Cannot read properties of undefined")
  | .null => .error (.typeError "Cannot read properties of null")
  | _ => .error (.typeError "find is not a function")

/-- The state of the script with whatever configuration value the host page
has supplied. -/
structure Page where
  config : JSVal
  currentLocationId : Option String
  dom : Dom

/-- The function `checkAndReplaceLogo` on an arbitrary configuration value: a
thrown error leaves the function, otherwise the state after the call. -/
def checkAndReplaceLogoJS (b : Browser) (href : String) (doc : Nat → Query) (s : Page) :
    Except JSError Page :=
  match getLocationId href with
  | none => .ok s
  | some newLocationId =>
    match configFind s.config newLocationId with
    | .error e => .error e
    | .ok none =>
      .ok { s with dom := restoreDefaultLogo b (doc 0) s.dom,
                   currentLocationId := some newLocationId }
    | .ok (some config) =>
      if config.truthy then
        match config.getProp "name" with
        | .error e => .error e
        | .ok name =>
          match config.getProp "logoURL" with
          | .error e => .error e
          | .ok logoURL =>
            .ok { s with dom := (replaceLogo b logoURL name doc s.dom).dom,
                         currentLocationId := some newLocationId }
      else
        .ok { s with dom := restoreDefaultLogo b (doc 0) s.dom,
                     currentLocationId := some newLocationId }

/-- The public function `LogoSwitcher.refresh`. -/
def refresh (b : Browser) (href : String) (doc : Nat → Query) (s : Page) :
    Except JSError Page :=
  checkAndReplaceLogoJS b href doc s

/-- The public function `LogoSwitcher.addConfig`: `push` exists on arrays only. -/
def addConfig (b : Browser) (href : String) (doc : Nat → Query) (s : Page) (config : JSVal) :
    Except JSError Page :=
  match s.config with
  | .arr items => checkAndReplaceLogoJS b href doc { s with config := .arr (items ++ [config]) }
  | .undefined => .error (.typeError "Cannot read properties of undefined")
  | .null => .error (.typeError "Cannot read properties of null")
  | _ => .error (.typeError "push is not a function")

/-- The public function `LogoSwitcher.updateConfig`. -/
def updateConfig (b : Browser) (href : String) (doc : Nat → Query) (s : Page)
    (newConfig : JSVal) : Except JSError Page :=
  checkAndReplaceLogoJS b href doc { s with config := newConfig }

/-- A well-formed entry as a data value. -/
def ConfigEntry.toJS (e : ConfigEntry) : JSVal :=
  .obj [("name", .str e.name), ("locationIds", .arr (e.locationIds.map .str)),
    ("logoURL", .str e.logoURL)]

/-- A well-formed configuration list as a data value. -/
def configToJS (config : List ConfigEntry) : JSVal :=
  .arr (config.map ConfigEntry.toJS)

/-- A state with a well-formed configuration as a state with a configuration
value. -/
def State.toPage (s : State) : Page :=
  ⟨configToJS s.config, s.currentLocationId, s.dom⟩

/-! ## Notions of the specification -/

/-- An occurrence of an identifier in an address: the address is
`pre ++ "/location/" ++ id ++ rest`, where `id` is a non-empty run of ASCII
letters and digits and `rest` is empty or starts with `/` or `?`. -/
def IsOccurrence (url pre id : String) : Prop :=
  ∃ rest : String, url = pre ++ "/location/" ++ id ++ rest ∧ id ≠ "" ∧
    (∀ c ∈ id.toList, c.isAlphanum = true) ∧
    (rest = "" ∨ rest.toList.head? = some '/' ∨ rest.toList.head? = some '?')


/-- The same occurrence on character lists, with the character class of the pattern. -/
def IsOccurrenceL (url pre id : List Char) : Prop :=
  ∃ rest, url = pre ++ locationLiteral ++ id ++ rest ∧ id ≠ [] ∧
    (∀ c ∈ id, isAlnum c = true) ∧
    (rest = [] ∨ rest.head? = some '/' ∨ rest.head? = some '?')


/-- An operation of the script on one candidate element: an application of a
logo, or the restoration of the default. -/
inductive Op where
  | apply (logoUrl : String)
  | restore
  deriving DecidableEq, Repr

/-- A sequence of operations on one element, run from left to right. -/
def runOps (b : Browser) (ops : List Op) (logoElement : LogoElement) : LogoElement :=
  ops.foldl
    (fun el op =>
      match op with
      | Op.apply logoUrl => (applyLogoStyles b el (.str logoUrl)).1
      | Op.restore => restoreElement b el)
    logoElement

/-- The presentation properties `applyLogoStyles` writes are all set. -/
def Style.Normalized (st : Style) : Prop :=
  st.objectFit = "contain" ∧ st.maxHeight = "40px" ∧ st.maxWidth = "180px" ∧
    st.padding = "4px" ∧ st.borderRadius = "4px" ∧ st.display = "block"

/-- An entry on which the callback of the search does not throw: an object
whose `locationIds` is a list or a string. -/
def HasLocationIds (entry : JSVal) : Prop :=
  ∃ fields ids, entry = .obj fields ∧ fields.lookup "locationIds" = some ids ∧
    ((∃ items, ids = .arr items) ∨ ∃ text, ids = .str text)

/-- An entry the callback of the search accepts for the identifier: its
`locationIds` is a list with the identifier among its items, or a string with
the identifier as a substring. -/
def ListsId (id : String) (entry : JSVal) : Prop :=
  ∃ fields ids, entry = .obj fields ∧ fields.lookup "locationIds" = some ids ∧
    ((∃ items, ids = .arr items ∧ JSVal.str id ∈ items) ∨
      ∃ text, ids = .str text ∧ id.toList <:+: text.toList)

/-- Every entry the search examines, that is every entry with no accepted
entry before it, is one on which the callback does not throw. -/
def SearchSafe (id : String) (items : List JSVal) : Prop :=
  ∀ pre e post, items = pre ++ e :: post → (∀ x ∈ pre, ¬ ListsId id x) → HasLocationIds e

/-- The address carries no location identifier, or the configuration is a list
that is safe to search for the identifier of the address. -/
def EvaluationSafe (href : String) (config : JSVal) : Prop :=
  getLocationId href = none ∨
    ∃ id items, getLocationId href = some id ∧ config = .arr items ∧ SearchSafe id items

/-- An entry carrying a `locationIds` list, whatever else it carries. -/
def HasIdList (entry : JSVal) : Prop :=
  ∃ fields ids, entry = .obj fields ∧ fields.lookup "locationIds" = some (.arr ids)

/-! ## Concrete pages and configurations -/

/-- A browser showing a document at `https://host/`, as far as the examples
need it: a URL that starts with `/` is resolved against the origin
`https://host`, the absolute URLs of the examples read back as assigned; the
images of the examples carry no other inline declarations. -/
def hostBrowser : Browser where
  resolveUrl := fun u =>
    match u.toList with
    | '/' :: _ => "https://host" ++ u
    | _ => u
  stringOf := fun _ => "[object Object]"
  resetLonghands := fun other => other

/-- A page where two selectors overlap: the images 2 and 3 are in the logo
container, the images 1, 2 and 3 have a logo alt text. -/
def overlapQuery : Query := fun selector =>
  if selector = ".agency-logo-container img" then [2, 3]
  else if selector = "img[alt*=\"logo\" i]" then [1, 2, 3]
  else []

/-- A page whose candidates never render. -/
def emptyDoc : Nat → Query := fun _ _ => []

/-- A page with the candidates of `overlapQuery` at every moment. -/
def overlapDoc : Nat → Query := fun _ => overlapQuery

/-- An image without a source that the script has not touched. -/
def blankImage : LogoElement := ⟨"", none, Style.cleared⟩

/-- An image showing the host's logo that the script has not touched. -/
def hostImage : LogoElement := ⟨"https://msgsndr/host.png", none, Style.cleared⟩

/-- An image the script has rewritten before. -/
def touchedImage : LogoElement :=
  ⟨"https://x/acme.png", some "https://msgsndr/host.png",
    ⟨"contain", "40px", "180px", "4px", "4px", "block", []⟩⟩

/-- An untouched image that already shows the Acme logo. -/
def acmeImage : LogoElement := ⟨"https://x/acme.png", none, Style.cleared⟩

/-- A page where image 1 already shows the Acme logo and the other images show
the host's logo. -/
def mixedDom : Dom := fun i => if i = 1 then acmeImage else hostImage

/-- The configuration of the Acme scenario. -/
def acmeConfig : List ConfigEntry :=
  [⟨"Acme", ["ABC123"], "https://x/acme.png"⟩]

/-- The Acme scenario with the logo given by a path. -/
def acmePathConfig : List ConfigEntry :=
  [⟨"Acme", ["ABC123"], "/img/acme.png"⟩]

/-- Two entries that both list `DUPID`. -/
def dupConfig : List ConfigEntry :=
  [⟨"First", ["OTHER", "DUPID"], "https://x/first.png"⟩,
   ⟨"Second", ["DUPID"], "https://x/second.png"⟩]

/-! ## The location resolver -/

theorem isAlnum_eq_isAlphanum (c : Char) : isAlnum c = c.isAlphanum := by
  simp only [isAlnum, Char.isAlphanum, Char.isAlpha, Char.isUpper, Char.isLower, Char.isDigit,
    Char.le_def, UInt32.le_def, ge_iff_le]
  rw [Bool.eq_iff_iff]
  simp only [Bool.or_eq_true, Bool.and_eq_true, decide_eq_true_eq]
  have h1 : ('a' : Char).val = 97 := rfl
  have h2 : ('z' : Char).val = 122 := rfl
  have h3 : ('A' : Char).val = 65 := rfl
  have h4 : ('Z' : Char).val = 90 := rfl
  have h5 : ('0' : Char).val = 48 := rfl
  have h6 : ('9' : Char).val = 57 := rfl
  rw [h1, h2, h3, h4, h5, h6]
  tauto

theorem matchLiteral_eq_some (p s r : List Char) :
    matchLiteral p s = some r ↔ s = p ++ r := by
  induction p generalizing s with
  | nil => simp [matchLiteral, eq_comm]
  | cons a p ih =>
    cases s with
    | nil => simp [matchLiteral]
    | cons c cs =>
      simp only [matchLiteral, List.cons_append, List.cons.injEq]
      by_cases h : a = c
      · simp [h, ih, eq_comm]
      · simp [h, eq_comm]

theorem matchTerminator_iff (rest : List Char) :
    matchTerminator rest = true ↔
      (rest = [] ∨ rest.head? = some '/' ∨ rest.head? = some '?') := by
  cases rest with
  | nil => simp [matchTerminator]
  | cons c cs => simp [matchTerminator]

theorem matchRun_none_of_terminator (rest : List Char)
    (h : rest = [] ∨ rest.head? = some '/' ∨ rest.head? = some '?') :
    matchRun rest = none := by
  cases rest with
  | nil => simp [matchRun]
  | cons c cs =>
    simp at h
    rcases h with h | h <;> subst h <;> simp [matchRun, isAlnum]

theorem matchRun_eq_some (s id : List Char) :
    matchRun s = some id ↔
      ∃ rest, s = id ++ rest ∧ id ≠ [] ∧ (∀ c ∈ id, isAlnum c = true) ∧
        (rest = [] ∨ rest.head? = some '/' ∨ rest.head? = some '?') := by
  induction s generalizing id with
  | nil =>
    simp only [matchRun, List.nil_eq, List.append_eq_nil]
    constructor
    · intro h; cases h
    · rintro ⟨rest, ⟨h1, _⟩, h2, _⟩; exact absurd h1 h2
  | cons c cs ih =>
    constructor
    · intro h
      simp only [matchRun] at h
      split at h
      · rename_i hc
        split at h
        · rename_i r hr
          obtain ⟨rest, h1, h2, h3, h4⟩ := (ih r).1 hr
          cases h
          exact ⟨rest, by simp [h1], by simp, by simpa [hc] using h3, h4⟩
        · split at h
          · rename_i ht
            cases h
            exact ⟨cs, by simp, by simp, by simpa using hc, (matchTerminator_iff cs).1 ht⟩
          · cases h
      · cases h
    · rintro ⟨rest, h1, h2, h3, h4⟩
      cases id with
      | nil => exact absurd rfl h2
      | cons a id' =>
        simp only [List.cons_append, List.cons.injEq] at h1
        obtain ⟨rfl, rfl⟩ := h1
        have hc : isAlnum c = true := h3 c (by simp)
        simp only [matchRun, hc, if_true]
        by_cases hid : id' = []
        · subst hid
          simp only [List.nil_append]
          rw [matchRun_none_of_terminator rest h4]
          simp [(matchTerminator_iff rest).2 h4]
        · have := (ih id').2 ⟨rest, rfl, hid, fun x hx => h3 x (by simp [hx]), h4⟩
          simp [this]


theorem matchAt_eq_some (s id : List Char) :
    matchAt s = some id ↔ IsOccurrenceL s [] id := by
  unfold matchAt IsOccurrenceL
  constructor
  · intro h
    split at h
    · rename_i rest hrest
      obtain ⟨r, h1, h2, h3, h4⟩ := (matchRun_eq_some rest id).1 h
      refine ⟨r, ?_, h2, h3, h4⟩
      rw [(matchLiteral_eq_some _ _ _).1 hrest, h1]
      simp
    · cases h
  · rintro ⟨r, h1, h2, h3, h4⟩
    have : matchLiteral locationLiteral s = some (id ++ r) :=
      (matchLiteral_eq_some _ _ _).2 (by rw [h1]; simp)
    rw [this]
    exact (matchRun_eq_some _ _).2 ⟨r, rfl, h2, h3, h4⟩

theorem isOccurrenceL_cons (c p : Char) (cs pre id : List Char) :
    IsOccurrenceL (c :: cs) (p :: pre) id ↔ p = c ∧ IsOccurrenceL cs pre id := by
  unfold IsOccurrenceL
  constructor
  · rintro ⟨r, h1, h2⟩
    simp only [List.cons_append, List.cons.injEq] at h1
    exact ⟨h1.1.symm, r, h1.2, h2⟩
  · rintro ⟨rfl, r, h1, h2⟩
    exact ⟨r, by simp [h1], h2⟩

theorem not_isOccurrenceL_nil (pre id : List Char) : ¬ IsOccurrenceL [] pre id := by
  rintro ⟨r, h1, _⟩
  have := congrArg List.length h1
  simp [locationLiteral] at this
  omega

theorem regexMatch_of_leftmost (s pre id : List Char) (h : IsOccurrenceL s pre id)
    (hmin : ∀ pre2 id2, IsOccurrenceL s pre2 id2 → pre.length ≤ pre2.length) :
    regexMatch s = some id := by
  induction s generalizing pre with
  | nil => exact absurd h (not_isOccurrenceL_nil _ _)
  | cons c cs ih =>
    cases pre with
    | nil =>
      have := (matchAt_eq_some _ _).2 h
      simp [regexMatch, this]
    | cons p pre1 =>
      have hnone : matchAt (c :: cs) = none := by
        cases hm : matchAt (c :: cs) with
        | none => rfl
        | some r =>
          have := hmin [] r ((matchAt_eq_some _ _).1 hm)
          simp at this
      simp only [regexMatch, hnone]
      obtain ⟨_, h2⟩ := (isOccurrenceL_cons _ _ _ _ _).1 h
      refine ih pre1 h2 ?_
      intro pre2 id2 h3
      have := hmin (c :: pre2) id2 ((isOccurrenceL_cons _ _ _ _ _).2 ⟨rfl, h3⟩)
      simpa using this

theorem regexMatch_of_no_occurrence (s : List Char)
    (h : ∀ pre id, ¬ IsOccurrenceL s pre id) : regexMatch s = none := by
  induction s with
  | nil =>
    cases hm : regexMatch [] with
    | none => rfl
    | some r =>
      simp only [regexMatch] at hm
      exact absurd ((matchAt_eq_some _ _).1 hm) (h _ _)
  | cons c cs ih =>
    have hnone : matchAt (c :: cs) = none := by
      cases hm : matchAt (c :: cs) with
      | none => rfl
      | some r => exact absurd ((matchAt_eq_some _ _).1 hm) (h _ _)
    simp only [regexMatch, hnone]
    exact ih fun pre id h2 => h (c :: pre) id ((isOccurrenceL_cons _ _ _ _ _).2 ⟨rfl, h2⟩)

theorem isOccurrence_iff (url pre id : String) :
    IsOccurrence url pre id ↔ IsOccurrenceL url.toList pre.toList id.toList := by
  unfold IsOccurrence IsOccurrenceL
  constructor
  · rintro ⟨rest, h1, h2, h3, h4⟩
    refine ⟨rest.toList, ?_, ?_, fun c hc => (isAlnum_eq_isAlphanum c).trans (h3 c hc), ?_⟩
    · rw [h1]; simp [locationLiteral]
    · intro h; apply h2; exact String.ext h
    · rcases h4 with h | h
      · left; rw [h]; rfl
      · right; exact h
  · rintro ⟨rest, h1, h2, h3, h4⟩
    refine ⟨String.mk rest, ?_, ?_,
      fun c hc => (isAlnum_eq_isAlphanum c).symm.trans (h3 c hc), ?_⟩
    · apply String.ext
      have h5 : url.data = pre.data ++ locationLiteral ++ id.data ++ rest := h1
      simp [h5, locationLiteral]
    · intro h; apply h2; rw [h]; rfl
    · rcases h4 with h | h
      · left; rw [h]
      · right; exact h

/-- C1. The function `getLocationId` returns the identifier of the leftmost
occurrence of `/location/` followed by a non-empty alphanumeric run that is
followed by `/`, `?` or the end of the address, and returns `none` (null) for
an address without such an occurrence; being a total function, it never
raises. -/
theorem getLocationId_spec (url : String) :
    (∀ pre id : String, IsOccurrence url pre id →
        (∀ pre2 id2 : String, IsOccurrence url pre2 id2 → pre.length ≤ pre2.length) →
        getLocationId url = some id) ∧
    ((∀ pre id : String, ¬ IsOccurrence url pre id) → getLocationId url = none) := by
  constructor
  · intro pre id h hmin
    have hL := (isOccurrence_iff _ _ _).1 h
    have hm : regexMatch url.toList = some id.toList := by
      refine regexMatch_of_leftmost _ _ _ hL ?_
      intro pre2 id2 h2
      exact hmin (String.mk pre2) (String.mk id2) ((isOccurrence_iff _ _ _).2 h2)
    unfold getLocationId
    rw [hm]
    rfl
  · intro h
    have hm : regexMatch url.toList = none := by
      refine regexMatch_of_no_occurrence _ ?_
      intro pre id h2
      exact h (String.mk pre) (String.mk id) ((isOccurrence_iff _ _ _).2 h2)
    unfold getLocationId
    rw [hm]

theorem getLocationId_spec_witness :
    (IsOccurrence "/location/a7?x" "" "a7" ∧
      (∀ pre2 id2 : String, IsOccurrence "/location/a7?x" pre2 id2 →
        "".length ≤ pre2.length) ∧
      getLocationId "/location/a7?x" = some "a7") ∧
    ((∀ pre id : String, ¬ IsOccurrence "/loc" pre id) ∧ getLocationId "/loc" = none) := by
  have h1 : IsOccurrence "/location/a7?x" "" "a7" :=
    ⟨"?x", by decide, by decide, by decide, by decide⟩
  have h2 : ∀ pre2 id2 : String, IsOccurrence "/location/a7?x" pre2 id2 →
      "".length ≤ pre2.length := fun _ _ _ => Nat.zero_le _
  have h3 : ∀ pre id : String, ¬ IsOccurrence "/loc" pre id := by
    rintro pre id ⟨rest, h, _⟩
    have := congrArg String.length h
    simp [String.length_append] at this
    have h5 : ("/loc" : String).length = 4 := by decide
    have h6 : ("/location/" : String).length = 10 := by decide
    omega
  exact ⟨⟨h1, h2, (getLocationId_spec _).1 _ _ h1 h2⟩, h3, (getLocationId_spec _).2 h3⟩

/-! ## The candidate search -/

/-- The step of the inner loop of `findAllGhlLogos` on the pair (`logos`, `seen`). -/
theorem findStep_fold (l : List ElemId) (logos seen : List ElemId)
    (hseen : ∀ e, e ∈ seen ↔ e ∈ logos) (hnd : logos.Nodup) :
    let r := l.foldl
      (fun (st : List ElemId × List ElemId) element =>
        if element ∈ st.2 then st else (st.1 ++ [element], element :: st.2))
      (logos, seen)
    (∀ e, e ∈ r.2 ↔ e ∈ r.1) ∧ r.1.Nodup ∧
    (∀ e, e ∈ r.1 ↔ e ∈ logos ∨ e ∈ l) ∧
    (∀ a b, a ∈ logos ++ l → b ∈ logos ++ l →
      (List.indexOf a r.1 < List.indexOf b r.1 ↔
        List.indexOf a (logos ++ l) < List.indexOf b (logos ++ l))) := by
  induction l generalizing logos seen with
  | nil => simp [hseen, hnd]
  | cons x xs ih =>
    simp only [List.foldl_cons]
    by_cases hx : x ∈ seen
    · simp only [hx, if_true]
      obtain ⟨h1, h2, h3, h4⟩ := ih logos seen hseen hnd
      have hxl : x ∈ logos := (hseen x).1 hx
      refine ⟨h1, h2, ?_, ?_⟩
      · intro e
        rw [h3 e]
        constructor
        · rintro (h | h)
          · exact Or.inl h
          · exact Or.inr (List.mem_cons_of_mem _ h)
        · rintro (h | h)
          · exact Or.inl h
          · rcases List.mem_cons.1 h with h | h
            · exact Or.inl (h ▸ hxl)
            · exact Or.inr h
      · intro a b ha hb
        have key : ∀ c, c ∈ logos ++ x :: xs → c ∈ logos ++ xs ∧
            (c ∈ logos → List.indexOf c (logos ++ x :: xs) = List.indexOf c logos ∧
              List.indexOf c (logos ++ xs) = List.indexOf c logos ∧
              List.indexOf c logos < logos.length) ∧
            (c ∉ logos → List.indexOf c (logos ++ x :: xs)
                = logos.length + (List.indexOf c xs + 1) ∧
              List.indexOf c (logos ++ xs) = logos.length + List.indexOf c xs) := by
          intro c hc
          refine ⟨?_, ?_, ?_⟩
          · rcases List.mem_append.1 hc with h | h
            · exact List.mem_append_left _ h
            · rcases List.mem_cons.1 h with h | h
              · exact List.mem_append_left _ (h ▸ hxl)
              · exact List.mem_append_right _ h
          · intro h
            exact ⟨List.indexOf_append_of_mem h, List.indexOf_append_of_mem h,
              List.indexOf_lt_length.2 h⟩
          · intro h
            have hne : x ≠ c := fun hxc => h (hxc ▸ hxl)
            refine ⟨?_, List.indexOf_append_of_not_mem h⟩
            rw [List.indexOf_append_of_not_mem h, List.indexOf_cons_ne _ hne]
        obtain ⟨ma, haIn, haOut⟩ := key a ha
        obtain ⟨mb, hbIn, hbOut⟩ := key b hb
        rw [h4 a b ma mb]
        by_cases hal : a ∈ logos <;> by_cases hbl : b ∈ logos
        · obtain ⟨e1, e2, _⟩ := haIn hal
          obtain ⟨e3, e4, _⟩ := hbIn hbl
          rw [e1, e2, e3, e4]
        · obtain ⟨e1, e2, e5⟩ := haIn hal
          obtain ⟨e3, e4⟩ := hbOut hbl
          rw [e1, e2, e3, e4]
          omega
        · obtain ⟨e1, e2⟩ := haOut hal
          obtain ⟨e3, e4, e5⟩ := hbIn hbl
          rw [e1, e2, e3, e4]
          omega
        · obtain ⟨e1, e2⟩ := haOut hal
          obtain ⟨e3, e4⟩ := hbOut hbl
          rw [e1, e2, e3, e4]
          omega
    · simp only [hx, if_false]
      have hxl : x ∉ logos := fun h => hx ((hseen x).2 h)
      have hseen2 : ∀ e, e ∈ x :: seen ↔ e ∈ logos ++ [x] := by
        intro e
        simp only [List.mem_cons, List.mem_append, List.mem_singleton, hseen e,
          List.not_mem_nil, or_false]
        exact or_comm
      have hnd2 : (logos ++ [x]).Nodup := by
        rw [List.nodup_append]
        refine ⟨hnd, List.nodup_singleton x, ?_⟩
        intro e he he2
        rw [List.mem_singleton] at he2
        exact hxl (he2 ▸ he)
      obtain ⟨h1, h2, h3, h4⟩ := ih (logos ++ [x]) (x :: seen) hseen2 hnd2
      refine ⟨h1, h2, ?_, ?_⟩
      · intro e
        rw [h3 e]
        simp only [List.mem_append, List.mem_singleton, List.mem_cons, or_assoc,
          List.not_mem_nil, false_or]
      · intro a b ha hb
        have e : logos ++ [x] ++ xs = logos ++ x :: xs := by simp
        rw [e] at h4
        exact h4 a b ha hb

/-- The search visits the per-selector results as one concatenated list. -/
theorem findAllGhlLogos_eq_fold (q : Query) :
    findAllGhlLogos q =
      ((GHL_LOGO_SELECTORS.flatMap q).foldl
        (fun (st : List ElemId × List ElemId) element =>
          if element ∈ st.2 then st else (st.1 ++ [element], element :: st.2))
        (([] : List ElemId), ([] : List ElemId))).1 := by
  unfold findAllGhlLogos
  rw [List.flatMap, List.foldl_flatten, List.foldl_map]

theorem findAllGhlLogos_nodup (q : Query) : (findAllGhlLogos q).Nodup := by
  rw [findAllGhlLogos_eq_fold]
  exact (findStep_fold _ [] [] (fun _ => Iff.rfl) List.nodup_nil).2.1

theorem mem_findAllGhlLogos (q : Query) (e : ElemId) :
    e ∈ findAllGhlLogos q ↔ ∃ sel ∈ GHL_LOGO_SELECTORS, e ∈ q sel := by
  rw [findAllGhlLogos_eq_fold]
  rw [(findStep_fold _ [] [] (fun _ => Iff.rfl) List.nodup_nil).2.2.1 e]
  simp [List.mem_flatMap]

/-! ## Passes over the candidates -/

/-- A pass that rewrites each listed element once: listed elements are mapped,
the others are untouched. -/
theorem foldl_update_apply (f : LogoElement → LogoElement) (l : List ElemId)
    (hnd : l.Nodup) (d : Dom) (i : ElemId) :
    (l.foldl (fun d id => Function.update d id (f (d id))) d) i
      = if i ∈ l then f (d i) else d i := by
  induction l generalizing d with
  | nil => simp
  | cons x xs ih =>
    obtain ⟨hx, hxs⟩ := List.nodup_cons.1 hnd
    simp only [List.foldl_cons]
    rw [ih hxs]
    by_cases hi : i = x
    · subst hi
      simp [hx]
    · have hi2 : i ∈ x :: xs ↔ i ∈ xs := by simp [hi]
      simp only [hi2, Function.update_noteq hi]

theorem applyToAll_fst (b : Browser) (logoUrl : JSVal) (l : List ElemId) (d : Dom) :
    (applyToAll b logoUrl l d).1
      = l.foldl (fun d id => Function.update d id (applyLogoStyles b (d id) logoUrl).1) d := by
  unfold applyToAll
  generalize (0 : Nat) = n
  induction l generalizing d n with
  | nil => rfl
  | cons x xs ih => simp only [List.foldl_cons]; exact ih _ _

theorem applyToAll_apply (b : Browser) (logoUrl : JSVal) (l : List ElemId) (hnd : l.Nodup)
    (d : Dom) (i : ElemId) :
    (applyToAll b logoUrl l d).1 i
      = if i ∈ l then (applyLogoStyles b (d i) logoUrl).1 else d i := by
  rw [applyToAll_fst]
  exact foldl_update_apply (fun el => (applyLogoStyles b el logoUrl).1) l hnd d i

/-- The counter `replaced` of a pass counts the listed elements on which
`applyLogoStyles` reports an overwrite, each once. -/
theorem applyToAll_snd (b : Browser) (logoUrl : JSVal) (l : List ElemId) (hnd : l.Nodup)
    (d : Dom) :
    (applyToAll b logoUrl l d).2
      = (l.filter fun i => (applyLogoStyles b (d i) logoUrl).2).length := by
  unfold applyToAll
  have key : ∀ (l : List ElemId) (d0 : Dom) (n : Nat), l.Nodup →
      (l.foldl
        (fun (st : Dom × Nat) id =>
          let r := applyLogoStyles b (st.1 id) logoUrl
          (Function.update st.1 id r.1, if r.2 then st.2 + 1 else st.2))
        (d0, n)).2
        = n + (l.filter fun i => (applyLogoStyles b (d0 i) logoUrl).2).length := by
    intro l
    induction l with
    | nil => intro d0 n _; simp
    | cons x xs ih =>
      intro d0 n hnd
      obtain ⟨hx, hxs⟩ := List.nodup_cons.1 hnd
      simp only [List.foldl_cons]
      rw [ih _ _ hxs]
      have hcongr : (xs.filter fun i =>
            (applyLogoStyles b
              (Function.update d0 x (applyLogoStyles b (d0 x) logoUrl).1 i) logoUrl).2)
          = xs.filter fun i => (applyLogoStyles b (d0 i) logoUrl).2 := by
        apply List.filter_congr
        intro i hi
        have hne : i ≠ x := fun h => hx (h ▸ hi)
        rw [Function.update_noteq hne]
      rw [hcongr]
      by_cases hr : (applyLogoStyles b (d0 x) logoUrl).2 = true
      · simp only [hr, if_true, List.filter_cons_of_pos, List.length_cons]
        omega
      · simp only [hr, if_false, Bool.false_eq_true]
        rw [List.filter_cons_of_neg (by simpa using hr)]
  simpa using key l d 0 hnd

theorem restoreDefaultLogo_apply (b : Browser) (q : Query) (d : Dom) (i : ElemId) :
    restoreDefaultLogo b q d i
      = if i ∈ findAllGhlLogos q then restoreElement b (d i) else d i := by
  unfold restoreDefaultLogo
  exact foldl_update_apply (restoreElement b) _ (findAllGhlLogos_nodup q) d i

theorem attemptReplace_apply (b : Browser) (q : Query) (logoUrl : JSVal) (attempts : Nat)
    (d : Dom) (i : ElemId) :
    (attemptReplace b q logoUrl attempts d).dom i
      = if i ∈ findAllGhlLogos q then (applyLogoStyles b (d i) logoUrl).1 else d i := by
  unfold attemptReplace
  by_cases hc : (findAllGhlLogos q).length > 0
  · simp only [hc, if_true]
    exact applyToAll_apply b logoUrl _ (findAllGhlLogos_nodup q) d i
  · have hnil : findAllGhlLogos q = [] := by
      cases h : findAllGhlLogos q with
      | nil => rfl
      | cons a l => rw [h] at hc; simp at hc
    rw [hnil]
    by_cases hlt : attempts < MAX_ATTEMPTS <;> simp [hlt]

theorem attemptReplace_scheduled (b : Browser) (q : Query) (logoUrl : JSVal) (attempts : Nat)
    (dom : Dom) (h : (attemptReplace b q logoUrl attempts dom).scheduled = true) :
    attempts < MAX_ATTEMPTS ∧
      (attemptReplace b q logoUrl attempts dom).attempts = attempts + 1 := by
  unfold attemptReplace at h ⊢
  simp only at h ⊢
  split at h
  · cases h
  · split at h
    · rename_i h1 h2
      simp [h1, h2]
    · cases h

/-- A chain of attempts comes to its end when the fuel covers the retries that
are still allowed. -/
theorem attemptLoop_finished (b : Browser) (doc : Nat → Query) (logoUrl : JSVal)
    (fuel k attempts : Nat) (dom : Dom) (ha : attempts ≤ MAX_ATTEMPTS)
    (h : MAX_ATTEMPTS + 1 ≤ fuel + attempts) :
    (attemptLoop b doc logoUrl fuel k attempts dom).finished = true := by
  induction fuel generalizing k attempts dom with
  | zero => omega
  | succ n ih =>
    simp only [attemptLoop]
    split
    · rename_i hs
      obtain ⟨h1, h2⟩ := attemptReplace_scheduled _ _ _ _ _ hs
      simp only
      rw [h2]
      exact ih _ _ _ (by omega) (by omega)
    · rfl

/-- More fuel than the allowed retries need does not change a chain of attempts. -/
theorem attemptLoop_fuel (b : Browser) (doc : Nat → Query) (logoUrl : JSVal)
    (fuel1 fuel2 k attempts : Nat) (dom : Dom) (ha : attempts ≤ MAX_ATTEMPTS)
    (h1 : MAX_ATTEMPTS + 1 ≤ fuel1 + attempts) (h2 : MAX_ATTEMPTS + 1 ≤ fuel2 + attempts) :
    attemptLoop b doc logoUrl fuel1 k attempts dom
      = attemptLoop b doc logoUrl fuel2 k attempts dom := by
  induction fuel1 generalizing fuel2 k attempts dom with
  | zero => omega
  | succ n ih =>
    cases fuel2 with
    | zero => omega
    | succ m =>
      simp only [attemptLoop]
      split
      · rename_i hs
        obtain ⟨h3, h4⟩ := attemptReplace_scheduled _ _ _ _ _ hs
        rw [h4, ih m _ _ _ (by omega) (by omega) (by omega)]
      · rfl

theorem replaceLogo_of_candidates (b : Browser) (logoUrl name : JSVal) (doc : Nat → Query)
    (dom : Dom) (h : findAllGhlLogos (doc 0) ≠ []) :
    (replaceLogo b logoUrl name doc dom).dom
      = (applyToAll b logoUrl (findAllGhlLogos (doc 0)) dom).1 := by
  have hlen : (findAllGhlLogos (doc 0)).length > 0 := List.length_pos.2 h
  simp [replaceLogo, attemptLoop, attemptReplace, hlen]

theorem replaceLogo_apply_of_candidates (b : Browser) (logoUrl name : JSVal)
    (doc : Nat → Query) (dom : Dom) (h : findAllGhlLogos (doc 0) ≠ []) (i : ElemId)
    (hi : i ∈ findAllGhlLogos (doc 0)) :
    (replaceLogo b logoUrl name doc dom).dom i = (applyLogoStyles b (dom i) logoUrl).1 := by
  rw [replaceLogo_of_candidates b logoUrl name doc dom h,
    applyToAll_apply _ _ _ (findAllGhlLogos_nodup _), if_pos hi]

/-- C10. For every assignment of selector results, `findAllGhlLogos` returns a
list without repetition, containing exactly the elements matched by at least
one selector, ordered by first occurrence in the concatenation of the
per-selector results, so that each matched element occurs exactly once in it.
A pass of the applier (`attemptReplace`) leaves on every matched element the
result of one call of `applyLogoStyles` on the element as it was, counts in
`replaced` each element on which that call reports an overwrite once, and
leaves every other element alone; a pass of the restorer
(`restoreDefaultLogo`) leaves on every matched element the result of one
restoration of the element as it was, and leaves every other element alone. -/
theorem findAllGhlLogos_spec (q : Query) :
    (findAllGhlLogos q).Nodup ∧
    (∀ e, e ∈ findAllGhlLogos q ↔ ∃ sel ∈ GHL_LOGO_SELECTORS, e ∈ q sel) ∧
    (∀ a b, a ∈ findAllGhlLogos q → b ∈ findAllGhlLogos q →
      (List.indexOf a (findAllGhlLogos q) < List.indexOf b (findAllGhlLogos q) ↔
        List.indexOf a (GHL_LOGO_SELECTORS.flatMap q)
          < List.indexOf b (GHL_LOGO_SELECTORS.flatMap q))) ∧
    (∀ e, (∃ sel ∈ GHL_LOGO_SELECTORS, e ∈ q sel) → (findAllGhlLogos q).count e = 1) ∧
    (∀ (br : Browser) (logoUrl : JSVal) (attempts : Nat) (dom : Dom) (i : ElemId),
      (attemptReplace br q logoUrl attempts dom).dom i
        = if (∃ sel ∈ GHL_LOGO_SELECTORS, i ∈ q sel)
            then (applyLogoStyles br (dom i) logoUrl).1 else dom i) ∧
    (∀ (br : Browser) (logoUrl : JSVal) (dom : Dom),
      (applyToAll br logoUrl (findAllGhlLogos q) dom).2
        = ((findAllGhlLogos q).filter
            fun i => (applyLogoStyles br (dom i) logoUrl).2).length) ∧
    (∀ (br : Browser) (dom : Dom) (i : ElemId),
      restoreDefaultLogo br q dom i
        = if (∃ sel ∈ GHL_LOGO_SELECTORS, i ∈ q sel)
            then restoreElement br (dom i) else dom i) := by
  refine ⟨findAllGhlLogos_nodup q, mem_findAllGhlLogos q, ?_, ?_, ?_, ?_, ?_⟩
  · intro a b ha hb
    have ha2 : a ∈ GHL_LOGO_SELECTORS.flatMap q :=
      List.mem_flatMap.2 ((mem_findAllGhlLogos q a).1 ha)
    have hb2 : b ∈ GHL_LOGO_SELECTORS.flatMap q :=
      List.mem_flatMap.2 ((mem_findAllGhlLogos q b).1 hb)
    have h := (findStep_fold (GHL_LOGO_SELECTORS.flatMap q) [] []
      (fun _ => Iff.rfl) List.nodup_nil).2.2.2 a b (by simpa using ha2) (by simpa using hb2)
    rw [findAllGhlLogos_eq_fold]
    simpa using h
  · intro e he
    exact List.count_eq_one_of_mem (findAllGhlLogos_nodup q) ((mem_findAllGhlLogos q e).2 he)
  · intro br logoUrl attempts dom i
    rw [attemptReplace_apply]
    by_cases hi : i ∈ findAllGhlLogos q
    · rw [if_pos hi, if_pos ((mem_findAllGhlLogos q i).1 hi)]
    · rw [if_neg hi, if_neg (fun h => hi ((mem_findAllGhlLogos q i).2 h))]
  · intro br logoUrl dom
    exact applyToAll_snd br logoUrl _ (findAllGhlLogos_nodup q) dom
  · intro br dom i
    rw [restoreDefaultLogo_apply]
    by_cases hi : i ∈ findAllGhlLogos q
    · rw [if_pos hi, if_pos ((mem_findAllGhlLogos q i).1 hi)]
    · rw [if_neg hi, if_neg (fun h => hi ((mem_findAllGhlLogos q i).2 h))]

theorem findAllGhlLogos_spec_witness :
    findAllGhlLogos overlapQuery = [2, 3, 1] ∧
    (3 ∈ findAllGhlLogos overlapQuery ∧ 1 ∈ findAllGhlLogos overlapQuery ∧
      (List.indexOf 3 (findAllGhlLogos overlapQuery)
          < List.indexOf 1 (findAllGhlLogos overlapQuery) ↔
        List.indexOf 3 (GHL_LOGO_SELECTORS.flatMap overlapQuery)
          < List.indexOf 1 (GHL_LOGO_SELECTORS.flatMap overlapQuery))) ∧
    ((∃ sel ∈ GHL_LOGO_SELECTORS, 2 ∈ overlapQuery sel) ∧
      (findAllGhlLogos overlapQuery).count 2 = 1) ∧
    (attemptReplace hostBrowser overlapQuery (.str "https://x/acme.png") 0
        (fun _ => blankImage)).dom 2
      = (applyLogoStyles hostBrowser blankImage (.str "https://x/acme.png")).1 ∧
    restoreDefaultLogo hostBrowser overlapQuery (fun _ => touchedImage) 2
      = restoreElement hostBrowser touchedImage := by
  have h1 : 1 ∈ findAllGhlLogos overlapQuery := by decide
  have h3 : 3 ∈ findAllGhlLogos overlapQuery := by decide
  have h2 : ∃ sel ∈ GHL_LOGO_SELECTORS, 2 ∈ overlapQuery sel :=
    ⟨".agency-logo-container img", by decide, by decide⟩
  refine ⟨by decide, ⟨h3, h1, (findAllGhlLogos_spec overlapQuery).2.2.1 3 1 h3 h1⟩,
    ⟨h2, (findAllGhlLogos_spec overlapQuery).2.2.2.1 2 h2⟩, ?_, ?_⟩
  · have h := (findAllGhlLogos_spec overlapQuery).2.2.2.2.1 hostBrowser
      (.str "https://x/acme.png") 0 (fun _ => blankImage) 2
    rw [if_pos h2] at h
    exact h
  · have h := (findAllGhlLogos_spec overlapQuery).2.2.2.2.2.2 hostBrowser
      (fun _ => touchedImage) 2
    rw [if_pos h2] at h
    exact h

/-! ## The config matcher -/

theorem arrayIncludes_iff (xs : List String) (v : String) :
    arrayIncludes xs v = true ↔ v ∈ xs := by
  induction xs with
  | nil => simp [arrayIncludes]
  | cons x xs ih =>
    simp only [arrayIncludes, List.mem_cons]
    by_cases h : x = v
    · simp [h]
    · simp only [h, if_false, ih]
      constructor
      · exact Or.inr
      · rintro (h2 | h2)
        · exact absurd h2.symm h
        · exact h2

theorem arrayFind_eq_some {α : Type} (p : α → Bool) (l : List α) (x : α) :
    arrayFind p l = some x ↔
      ∃ pre post, l = pre ++ x :: post ∧ p x = true ∧ ∀ y ∈ pre, p y = false := by
  induction l with
  | nil => simp [arrayFind]
  | cons a l ih =>
    simp only [arrayFind]
    by_cases ha : p a = true
    · simp only [ha, if_true, Option.some.injEq]
      constructor
      · rintro rfl
        exact ⟨[], l, rfl, ha, by simp⟩
      · rintro ⟨pre, post, h1, h2, h3⟩
        cases pre with
        | nil => simp at h1; exact h1.1
        | cons b pre =>
          simp only [List.cons_append, List.cons.injEq] at h1
          have := h3 b (by simp)
          rw [← h1.1, ha] at this
          cases this
    · rw [if_neg ha, ih]
      constructor
      · rintro ⟨pre, post, h1, h2, h3⟩
        refine ⟨a :: pre, post, by simp [h1], h2, ?_⟩
        intro y hy
        rcases List.mem_cons.1 hy with h | h
        · subst h; simpa using ha
        · exact h3 y h
      · rintro ⟨pre, post, h1, h2, h3⟩
        cases pre with
        | nil =>
          simp only [List.nil_append, List.cons.injEq] at h1
          rw [h1.1] at ha
          exact absurd h2 ha
        | cons b pre =>
          simp only [List.cons_append, List.cons.injEq] at h1
          exact ⟨pre, post, h1.2, h2, fun y hy => h3 y (by simp [hy])⟩

theorem arrayFind_eq_none {α : Type} (p : α → Bool) (l : List α) :
    arrayFind p l = none ↔ ∀ y ∈ l, p y = false := by
  induction l with
  | nil => simp [arrayFind]
  | cons a l ih =>
    simp only [arrayFind]
    by_cases ha : p a = true
    · simp [ha]
    · rw [if_neg ha, ih]
      simp only [List.mem_cons, forall_eq_or_imp]
      simp at ha
      simp [ha]

theorem findConfig_of_first (config : List ConfigEntry) (id : String)
    (pre : List ConfigEntry) (e : ConfigEntry) (post : List ConfigEntry)
    (h1 : config = pre ++ e :: post) (h2 : id ∈ e.locationIds)
    (h3 : ∀ e2 ∈ pre, id ∉ e2.locationIds) : findConfig config id = some e := by
  unfold findConfig
  rw [arrayFind_eq_some]
  refine ⟨pre, post, h1, (arrayIncludes_iff _ _).2 h2, ?_⟩
  intro y hy
  cases hc : arrayIncludes y.locationIds id with
  | false => rfl
  | true => exact absurd ((arrayIncludes_iff _ _).1 hc) (h3 y hy)

/-- C2. For every configuration list and identifier, the entry
`checkAndReplaceLogo` selects is the first entry of the list whose
`locationIds` contains the identifier (an earlier entry wins over a later one
listing the same identifier), and that entry's logo is applied; no entry is
selected exactly when no entry's `locationIds` contains the identifier, and
then the defaults are restored. -/
theorem checkAndReplaceLogo_selects_first (config : List ConfigEntry) (id : String) :
    (∀ pre e post, config = pre ++ e :: post → id ∈ e.locationIds →
        (∀ e2 ∈ pre, id ∉ e2.locationIds) →
        findConfig config id = some e ∧
        ∀ (b : Browser) href doc cur dom, getLocationId href = some id →
          (checkAndReplaceLogo b href doc ⟨config, cur, dom⟩).dom
            = (replaceLogo b (.str e.logoURL) (.str e.name) doc dom).dom) ∧
    (findConfig config id = none ↔ ∀ e ∈ config, id ∉ e.locationIds) ∧
    ((∀ e ∈ config, id ∉ e.locationIds) →
        ∀ (b : Browser) href doc cur dom, getLocationId href = some id →
          (checkAndReplaceLogo b href doc ⟨config, cur, dom⟩).dom
            = restoreDefaultLogo b (doc 0) dom) := by
  have hnone : findConfig config id = none ↔ ∀ e ∈ config, id ∉ e.locationIds := by
    unfold findConfig
    rw [arrayFind_eq_none]
    constructor
    · intro h e he hin
      have := h e he
      rw [(arrayIncludes_iff _ _).2 hin] at this
      cases this
    · intro h e he
      cases hc : arrayIncludes e.locationIds id with
      | false => rfl
      | true => exact absurd ((arrayIncludes_iff _ _).1 hc) (h e he)
  refine ⟨?_, hnone, ?_⟩
  · intro pre e post h1 h2 h3
    have hf := findConfig_of_first config id pre e post h1 h2 h3
    refine ⟨hf, ?_⟩
    intro b href doc cur dom hid
    simp only [checkAndReplaceLogo, hid, hf]
  · intro h b href doc cur dom hid
    simp only [checkAndReplaceLogo, hid, hnone.2 h]

theorem checkAndReplaceLogo_selects_first_witness :
    (findConfig dupConfig "DUPID" = some ⟨"First", ["OTHER", "DUPID"], "https://x/first.png"⟩ ∧
      (checkAndReplaceLogo hostBrowser "https://host/app/location/DUPID?tab=1" overlapDoc
          ⟨dupConfig, none, fun _ => hostImage⟩).dom
        = (replaceLogo hostBrowser (.str "https://x/first.png") (.str "First") overlapDoc
            (fun _ => hostImage)).dom) ∧
    ((∀ e ∈ ([] : List ConfigEntry), "DUPID" ∉ e.locationIds) ∧
      (checkAndReplaceLogo hostBrowser "https://host/app/location/DUPID?tab=1" overlapDoc
          ⟨[], none, fun _ => hostImage⟩).dom
        = restoreDefaultLogo hostBrowser (overlapDoc 0) (fun _ => hostImage)) := by
  have hid : getLocationId "https://host/app/location/DUPID?tab=1" = some "DUPID" := by decide
  have hempty : ∀ e ∈ ([] : List ConfigEntry), "DUPID" ∉ e.locationIds := by simp
  have h1 := (checkAndReplaceLogo_selects_first dupConfig "DUPID").1 []
    ⟨"First", ["OTHER", "DUPID"], "https://x/first.png"⟩
    [⟨"Second", ["DUPID"], "https://x/second.png"⟩] rfl (by decide) (by simp)
  exact ⟨⟨h1.1, h1.2 hostBrowser _ overlapDoc none (fun _ => hostImage) hid⟩, hempty,
    (checkAndReplaceLogo_selects_first [] "DUPID").2.2 hempty hostBrowser _ overlapDoc none
      (fun _ => hostImage) hid⟩

/-! ## The applier and the restorer on one element -/

theorem applyLogoStyles_src (b : Browser) (el : LogoElement) (logoUrl : JSVal) :
    (applyLogoStyles b el logoUrl).1.src
      = if logoUrl.strictEqualsString el.src then el.src
        else b.resolveUrl (domString b logoUrl) := by
  unfold applyLogoStyles
  by_cases h : logoUrl.strictEqualsString el.src = true <;>
    by_cases h2 : truthy el.originalSrc = true <;> simp [h, h2]

theorem applyLogoStyles_snd (b : Browser) (el : LogoElement) (logoUrl : JSVal) :
    (applyLogoStyles b el logoUrl).2 = !logoUrl.strictEqualsString el.src := by
  unfold applyLogoStyles
  by_cases h : logoUrl.strictEqualsString el.src = true <;>
    by_cases h2 : truthy el.originalSrc = true <;> simp [h, h2]

theorem applyLogoStyles_originalSrc (b : Browser) (el : LogoElement) (logoUrl : JSVal) :
    (applyLogoStyles b el logoUrl).1.originalSrc
      = if truthy el.originalSrc then el.originalSrc else some el.src := by
  unfold applyLogoStyles
  by_cases h : logoUrl.strictEqualsString el.src = true <;>
    by_cases h2 : truthy el.originalSrc = true <;> simp [h, h2]

theorem applyLogoStyles_style_of_ne (b : Browser) (el : LogoElement) (logoUrl : JSVal)
    (h : logoUrl.strictEqualsString el.src = false) :
    (applyLogoStyles b el logoUrl).1.style.Normalized ∧
      (applyLogoStyles b el logoUrl).1.style.other = b.resetLonghands el.style.other := by
  unfold applyLogoStyles Style.Normalized
  by_cases h2 : truthy el.originalSrc = true <;> simp [h, h2]

theorem applyLogoStyles_style_of_eq (b : Browser) (el : LogoElement) (logoUrl : JSVal)
    (h : logoUrl.strictEqualsString el.src = true) :
    (applyLogoStyles b el logoUrl).1.style = el.style := by
  unfold applyLogoStyles
  by_cases h2 : truthy el.originalSrc = true <;> simp [h, h2]

theorem strictEqualsString_str (u s : String) :
    (JSVal.str u).strictEqualsString s = decide (u = s) := rfl

theorem restoreElement_of_untouched (b : Browser) (el : LogoElement)
    (h : el.originalSrc = none) : restoreElement b el = el := by
  unfold restoreElement
  rw [h]

theorem restoreElement_originalSrc (b : Browser) (el : LogoElement) :
    (restoreElement b el).originalSrc = el.originalSrc := by
  unfold restoreElement
  split
  · split <;> simp_all
  · rfl

/-- A second application of the same logo writes nothing when the logo URL
reads back as assigned and the element has a non-empty source or a non-empty
marker to begin with. -/
theorem applyLogoStyles_idempotent_of_nonempty (b : Browser) (el : LogoElement)
    (logoUrl : String) (hr : b.resolveUrl logoUrl = logoUrl)
    (h : truthy el.originalSrc = true ∨ el.src ≠ "") :
    applyLogoStyles b (applyLogoStyles b el (.str logoUrl)).1 (.str logoUrl)
      = ((applyLogoStyles b el (.str logoUrl)).1, false) := by
  have hm : truthy (applyLogoStyles b el (.str logoUrl)).1.originalSrc = true := by
    rw [applyLogoStyles_originalSrc]
    by_cases h2 : truthy el.originalSrc = true
    · simp [h2]
    · rcases h with h | h
      · exact absurd h h2
      · rw [if_neg h2]; simp [truthy, h]
  have hs : (applyLogoStyles b el (.str logoUrl)).1.src = logoUrl := by
    rw [applyLogoStyles_src, strictEqualsString_str]
    by_cases h3 : logoUrl = el.src
    · simp [h3]
    · simp [h3, domString, hr]
  generalize (applyLogoStyles b el (.str logoUrl)).1 = el2 at hm hs
  unfold applyLogoStyles
  simp [hm, hs, JSVal.strictEqualsString]

/-- Once the marker is non-empty, no operation changes it. -/
theorem runOps_originalSrc_of_truthy (b : Browser) (ops : List Op) (el : LogoElement)
    (h : truthy el.originalSrc = true) :
    (runOps b ops el).originalSrc = el.originalSrc := by
  unfold runOps
  induction ops generalizing el with
  | nil => rfl
  | cons op ops ih =>
    simp only [List.foldl_cons]
    cases op with
    | apply u =>
      have h2 : (applyLogoStyles b el (.str u)).1.originalSrc = el.originalSrc := by
        rw [applyLogoStyles_originalSrc, if_pos h]
      rw [ih _ (by rw [h2]; exact h), h2]
    | restore =>
      have h2 := restoreElement_originalSrc b el
      rw [ih _ (by rw [h2]; exact h), h2]

/-- For an untouched element with a non-empty source, the marker is written by
the first application with the source of that moment and stays, and a
restoration after the applications assigns that source again. -/
theorem runOps_apply_of_nonempty (b : Browser) (el : LogoElement) (logoUrl : String)
    (ops : List Op) (h0 : el.originalSrc = none) (h1 : el.src ≠ "") :
    (runOps b (Op.apply logoUrl :: ops) el).originalSrc = some el.src ∧
    (restoreElement b (runOps b (Op.apply logoUrl :: ops) el)).src = b.resolveUrl el.src := by
  have hm : (applyLogoStyles b el (.str logoUrl)).1.originalSrc = some el.src := by
    rw [applyLogoStyles_originalSrc, h0]
    simp [truthy]
  have ht : truthy (applyLogoStyles b el (.str logoUrl)).1.originalSrc = true := by
    rw [hm]; simp [truthy, h1]
  have hrun : (runOps b (Op.apply logoUrl :: ops) el).originalSrc = some el.src := by
    have : runOps b (Op.apply logoUrl :: ops) el
        = runOps b ops (applyLogoStyles b el (.str logoUrl)).1 := rfl
    rw [this, runOps_originalSrc_of_truthy b ops _ ht, hm]
  refine ⟨hrun, ?_⟩
  generalize runOps b (Op.apply logoUrl :: ops) el = el2 at hrun
  unfold restoreElement
  rw [hrun]
  simp [truthy, h1]

theorem applyLogoStyles_blank (b : Browser)
    (h : b.resolveUrl "https://x/acme.png" = "https://x/acme.png") :
    (applyLogoStyles b blankImage (.str "https://x/acme.png")).1
      = ⟨"https://x/acme.png", some "",
          ⟨"contain", "40px", "180px", "4px", "4px", "block", b.resetLonghands []⟩⟩ := by
  simp [applyLogoStyles, blankImage, truthy, JSVal.strictEqualsString, domString, h,
    Style.cleared]

/-- C3 (failing input). An image without a source, two applications of the
same logo, whose URL reads back as assigned: the first records the empty
string as the original source, the second, finding the record falsy, records
the logo itself, so the page after two applications differs from the page
after one. -/
theorem applyLogoStyles_twice_blank (b : Browser)
    (h : b.resolveUrl "https://x/acme.png" = "https://x/acme.png") :
    (applyLogoStyles b blankImage (.str "https://x/acme.png")).1
      = ⟨"https://x/acme.png", some "",
          ⟨"contain", "40px", "180px", "4px", "4px", "block", b.resetLonghands []⟩⟩ ∧
    applyLogoStyles b (applyLogoStyles b blankImage (.str "https://x/acme.png")).1
        (.str "https://x/acme.png")
      = (⟨"https://x/acme.png", some "https://x/acme.png",
          ⟨"contain", "40px", "180px", "4px", "4px", "block", b.resetLonghands []⟩⟩, false) ∧
    (replaceLogo b (.str "https://x/acme.png") (.str "Acme") overlapDoc
        (replaceLogo b (.str "https://x/acme.png") (.str "Acme") overlapDoc
          (fun _ => blankImage)).dom).dom 1
      ≠ (replaceLogo b (.str "https://x/acme.png") (.str "Acme") overlapDoc
          (fun _ => blankImage)).dom 1 := by
  have h1 := applyLogoStyles_blank b h
  have h2 : applyLogoStyles b (applyLogoStyles b blankImage (.str "https://x/acme.png")).1
        (.str "https://x/acme.png")
      = (⟨"https://x/acme.png", some "https://x/acme.png",
          ⟨"contain", "40px", "180px", "4px", "4px", "block", b.resetLonghands []⟩⟩,
          false) := by
    rw [h1]
    simp [applyLogoStyles, truthy, JSVal.strictEqualsString]
  have hc : findAllGhlLogos (overlapDoc 0) ≠ [] := by decide
  have hi : 1 ∈ findAllGhlLogos (overlapDoc 0) := by decide
  refine ⟨h1, h2, ?_⟩
  rw [replaceLogo_apply_of_candidates b _ _ overlapDoc _ hc 1 hi,
    replaceLogo_apply_of_candidates b _ _ overlapDoc _ hc 1 hi, h2, h1]
  simp

theorem applyLogoStyles_twice_blank_witness :
    hostBrowser.resolveUrl "https://x/acme.png" = "https://x/acme.png" ∧
    (applyLogoStyles hostBrowser blankImage (.str "https://x/acme.png")).1
      = ⟨"https://x/acme.png", some "",
          ⟨"contain", "40px", "180px", "4px", "4px", "block", []⟩⟩ ∧
    applyLogoStyles hostBrowser
        (applyLogoStyles hostBrowser blankImage (.str "https://x/acme.png")).1
        (.str "https://x/acme.png")
      = (⟨"https://x/acme.png", some "https://x/acme.png",
          ⟨"contain", "40px", "180px", "4px", "4px", "block", []⟩⟩, false) :=
  ⟨by decide, (applyLogoStyles_twice_blank hostBrowser (by decide)).1,
    (applyLogoStyles_twice_blank hostBrowser (by decide)).2.1⟩

/-- C4 (failing input). An image without a source, one application of a logo
whose URL reads back as assigned, then a restoration: the recorded original
source is the empty string, which the restorer takes for no record, and the
image keeps the custom logo. -/
theorem restore_after_apply_blank (b : Browser)
    (h : b.resolveUrl "https://x/acme.png" = "https://x/acme.png") :
    blankImage.src = "" ∧ blankImage.originalSrc = none ∧
    (restoreElement b (applyLogoStyles b blankImage (.str "https://x/acme.png")).1).src
      = "https://x/acme.png" ∧
    (restoreDefaultLogo b (overlapDoc 0)
        (replaceLogo b (.str "https://x/acme.png") (.str "Acme") overlapDoc
          (fun _ => blankImage)).dom 1).src
      = "https://x/acme.png" := by
  have h1 := applyLogoStyles_blank b h
  have hc : findAllGhlLogos (overlapDoc 0) ≠ [] := by decide
  have hi : 1 ∈ findAllGhlLogos (overlapDoc 0) := by decide
  have h2 : (restoreElement b
      (applyLogoStyles b blankImage (.str "https://x/acme.png")).1).src
      = "https://x/acme.png" := by
    rw [h1]
    simp [restoreElement, truthy]
  refine ⟨rfl, rfl, h2, ?_⟩
  rw [restoreDefaultLogo_apply, if_pos hi,
    replaceLogo_apply_of_candidates b _ _ overlapDoc _ hc 1 hi]
  exact h2

theorem restore_after_apply_blank_witness :
    hostBrowser.resolveUrl "https://x/acme.png" = "https://x/acme.png" ∧
    (restoreElement hostBrowser
        (applyLogoStyles hostBrowser blankImage (.str "https://x/acme.png")).1).src
      = "https://x/acme.png" ∧
    (restoreDefaultLogo hostBrowser (overlapDoc 0)
        (replaceLogo hostBrowser (.str "https://x/acme.png") (.str "Acme") overlapDoc
          (fun _ => blankImage)).dom 1).src
      = "https://x/acme.png" :=
  ⟨by decide, (restore_after_apply_blank hostBrowser (by decide)).2.2.1,
    (restore_after_apply_blank hostBrowser (by decide)).2.2.2⟩

/-- C6 (failing input). An image without a source, two applications with
different logos, the first with a URL that reads back as assigned: the marker
is written by the first application (the empty string) and written again by
the second (the first logo), which a later restoration then brings back. -/
theorem originalSrc_rewritten_blank (b : Browser)
    (h : b.resolveUrl "https://x/acme.png" = "https://x/acme.png") :
    (runOps b [Op.apply "https://x/acme.png"] blankImage).originalSrc = some "" ∧
    (runOps b [Op.apply "https://x/acme.png", Op.apply "https://x/beta.png"]
        blankImage).originalSrc = some "https://x/acme.png" ∧
    (runOps b [Op.apply "https://x/acme.png", Op.apply "https://x/beta.png", Op.restore]
        blankImage).src = "https://x/acme.png" := by
  have h1 := applyLogoStyles_blank b h
  have e1 : runOps b [Op.apply "https://x/acme.png"] blankImage
      = (applyLogoStyles b blankImage (.str "https://x/acme.png")).1 := rfl
  have e2 : runOps b [Op.apply "https://x/acme.png", Op.apply "https://x/beta.png"] blankImage
      = (applyLogoStyles b (applyLogoStyles b blankImage (.str "https://x/acme.png")).1
          (.str "https://x/beta.png")).1 := rfl
  have e3 : runOps b
        [Op.apply "https://x/acme.png", Op.apply "https://x/beta.png", Op.restore] blankImage
      = restoreElement b
          (runOps b [Op.apply "https://x/acme.png", Op.apply "https://x/beta.png"]
            blankImage) := rfl
  have h2 : (runOps b [Op.apply "https://x/acme.png", Op.apply "https://x/beta.png"]
      blankImage).originalSrc = some "https://x/acme.png" := by
    rw [e2, applyLogoStyles_originalSrc, h1]
    simp [truthy]
  refine ⟨by rw [e1, h1], h2, ?_⟩
  rw [e3]
  generalize runOps b [Op.apply "https://x/acme.png", Op.apply "https://x/beta.png"]
    blankImage = el2 at h2
  unfold restoreElement
  rw [h2]
  simp [truthy, h]

theorem originalSrc_rewritten_blank_witness :
    hostBrowser.resolveUrl "https://x/acme.png" = "https://x/acme.png" ∧
    (runOps hostBrowser [Op.apply "https://x/acme.png"] blankImage).originalSrc = some "" ∧
    (runOps hostBrowser [Op.apply "https://x/acme.png", Op.apply "https://x/beta.png"]
        blankImage).originalSrc = some "https://x/acme.png" ∧
    (runOps hostBrowser
        [Op.apply "https://x/acme.png", Op.apply "https://x/beta.png", Op.restore]
        blankImage).src = "https://x/acme.png" :=
  ⟨by decide, originalSrc_rewritten_blank hostBrowser (by decide)⟩

/-! ## Repeated applications on a page -/

/-- The page a chain of attempts leaves is one pass of the applier over a
duplicate-free list of elements that depends on the documents only. -/
theorem attemptLoop_dom (b : Browser) (doc : Nat → Query) (logoUrl : JSVal)
    (fuel k attempts : Nat) :
    ∃ l : List ElemId, l.Nodup ∧
      ∀ dom, (attemptLoop b doc logoUrl fuel k attempts dom).dom
        = (applyToAll b logoUrl l dom).1 := by
  induction fuel generalizing k attempts with
  | zero => exact ⟨[], List.nodup_nil, fun _ => rfl⟩
  | succ n ih =>
    by_cases hc : (findAllGhlLogos (doc k)).length > 0
    · refine ⟨findAllGhlLogos (doc k), findAllGhlLogos_nodup _, fun dom => ?_⟩
      simp [attemptLoop, attemptReplace, hc]
    · by_cases hlt : attempts < MAX_ATTEMPTS
      · obtain ⟨l, hl, h⟩ := ih (k + 1) (attempts + 1)
        refine ⟨l, hl, fun dom => ?_⟩
        simp only [attemptLoop, attemptReplace, hc, hlt, if_true, if_false]
        exact h dom
      · refine ⟨[], List.nodup_nil, fun dom => ?_⟩
        simp only [attemptLoop, attemptReplace, hc, hlt, if_false, Bool.false_eq_true]
        rfl

/-- On a page where every image has a non-empty source or a non-empty marker,
applying a second time the same logo, whose URL reads back as assigned (the
documents unchanged), leaves the page as the first application left it. -/
theorem replaceLogo_idempotent_of_nonempty (b : Browser) (logoUrl : String) (name : JSVal)
    (doc : Nat → Query) (dom : Dom) (hr : b.resolveUrl logoUrl = logoUrl)
    (h : ∀ i, truthy (dom i).originalSrc = true ∨ (dom i).src ≠ "") :
    (replaceLogo b (.str logoUrl) name doc
        (replaceLogo b (.str logoUrl) name doc dom).dom).dom
      = (replaceLogo b (.str logoUrl) name doc dom).dom := by
  obtain ⟨l, hl, hdom⟩ := attemptLoop_dom b doc (.str logoUrl) (MAX_ATTEMPTS + 1) 0 0
  unfold replaceLogo
  rw [hdom, hdom]
  funext i
  rw [applyToAll_apply _ _ _ hl, applyToAll_apply _ _ _ hl]
  by_cases hi : i ∈ l
  · simp only [hi, if_true]
    rw [applyLogoStyles_idempotent_of_nonempty _ _ _ hr (h i)]
  · simp only [hi, if_false]

/-! ## Retries and evaluation -/

theorem attemptLoop_no_candidates (b : Browser) (doc : Nat → Query) (logoUrl : JSVal)
    (h : ∀ k, findAllGhlLogos (doc k) = []) (fuel k attempts : Nat) (dom : Dom)
    (ha : attempts ≤ MAX_ATTEMPTS) (hf : MAX_ATTEMPTS + 1 ≤ fuel + attempts) :
    (attemptLoop b doc logoUrl fuel k attempts dom).calls = MAX_ATTEMPTS + 1 - attempts ∧
    (attemptLoop b doc logoUrl fuel k attempts dom).dom = dom := by
  induction fuel generalizing k attempts with
  | zero => omega
  | succ n ih =>
    simp only [attemptLoop, attemptReplace, h k, List.length_nil, gt_iff_lt, Nat.lt_irrefl,
      if_false]
    by_cases hlt : attempts < MAX_ATTEMPTS
    · simp only [hlt, if_true]
      obtain ⟨h1, h2⟩ := ih (k + 1) (attempts + 1) (by omega) (by omega)
      exact ⟨by rw [h1]; omega, h2⟩
    · simp only [hlt, if_false, Bool.false_eq_true, and_true]
      omega

/-- C5 (as stated, refuted). With no candidate at any moment, one `replaceLogo`
runs `attemptReplace` nine times, not at most eight. -/
theorem replaceLogo_calls_exceed_eight :
    (∀ k, findAllGhlLogos (emptyDoc k) = []) ∧
    ¬ (replaceLogo hostBrowser (.str "https://x/acme.png") (.str "Acme") emptyDoc
        (fun _ => hostImage)).calls ≤ 8 := by
  refine ⟨fun _ => rfl, by decide⟩

/-- C5 (amended). With no candidate at any call, one `replaceLogo` runs
`attemptReplace` exactly nine times, the initial call and eight retries, then
schedules nothing further (the chain is complete, with any larger bound on the
number of followed calls as well) and leaves the page as it was. -/
theorem replaceLogo_no_candidates (b : Browser) (logoUrl name : JSVal) (doc : Nat → Query)
    (dom : Dom) (h : ∀ k, findAllGhlLogos (doc k) = []) :
    (replaceLogo b logoUrl name doc dom).calls = 9 ∧
    (replaceLogo b logoUrl name doc dom).finished = true ∧
    (replaceLogo b logoUrl name doc dom).dom = dom ∧
    (∀ fuel, MAX_ATTEMPTS + 1 ≤ fuel →
      attemptLoop b doc logoUrl fuel 0 0 dom = replaceLogo b logoUrl name doc dom) := by
  obtain ⟨h1, h2⟩ := attemptLoop_no_candidates b doc logoUrl h (MAX_ATTEMPTS + 1) 0 0 dom
    (Nat.zero_le _) (Nat.le_refl _)
  refine ⟨h1, ?_, h2, ?_⟩
  · exact attemptLoop_finished b doc logoUrl _ 0 0 dom (Nat.zero_le _) (Nat.le_refl _)
  · intro fuel hf
    exact attemptLoop_fuel b doc logoUrl fuel _ 0 0 dom (Nat.zero_le _) hf (Nat.le_refl _)

theorem replaceLogo_no_candidates_witness :
    (∀ k, findAllGhlLogos (emptyDoc k) = []) ∧
    (replaceLogo hostBrowser (.str "https://x/acme.png") (.str "Acme") emptyDoc
      (fun _ => hostImage)).calls = 9 ∧
    (replaceLogo hostBrowser (.str "https://x/acme.png") (.str "Acme") emptyDoc
      (fun _ => hostImage)).finished = true ∧
    (replaceLogo hostBrowser (.str "https://x/acme.png") (.str "Acme") emptyDoc
      (fun _ => hostImage)).dom = (fun _ => hostImage) :=
  have h : ∀ k, findAllGhlLogos (emptyDoc k) = [] := fun _ => rfl
  ⟨h, (replaceLogo_no_candidates hostBrowser _ (.str "Acme") emptyDoc
      (fun _ => hostImage) h).1,
    (replaceLogo_no_candidates hostBrowser _ (.str "Acme") emptyDoc
      (fun _ => hostImage) h).2.1,
    (replaceLogo_no_candidates hostBrowser _ (.str "Acme") emptyDoc
      (fun _ => hostImage) h).2.2.1⟩

/-- C7 (as stated, refuted). At an address without a location identifier the
evaluation does not restore: a candidate with a recorded original source keeps
the custom logo and its style. -/
theorem checkAndReplaceLogo_no_restore_without_id :
    getLocationId "https://host/app/settings" = none ∧
    1 ∈ findAllGhlLogos (overlapDoc 0) ∧
    touchedImage.originalSrc = some "https://msgsndr/host.png" ∧
    ((checkAndReplaceLogo hostBrowser "https://host/app/settings" overlapDoc
        ⟨acmeConfig, some "ABC123", fun _ => touchedImage⟩).dom 1).src
      ≠ "https://msgsndr/host.png" ∧
    ((checkAndReplaceLogo hostBrowser "https://host/app/settings" overlapDoc
        ⟨acmeConfig, some "ABC123", fun _ => touchedImage⟩).dom 1).style
      ≠ Style.cleared := by
  refine ⟨by decide, by decide, rfl, by decide, by decide⟩

/-- C7 (amended). At an address from which no location identifier can be
extracted, one evaluation returns at once: the page, the configuration and
`currentLocationId` are left exactly as they were, nothing is restored. -/
theorem checkAndReplaceLogo_without_id (b : Browser) (href : String) (doc : Nat → Query)
    (s : State) (h : getLocationId href = none) : checkAndReplaceLogo b href doc s = s := by
  simp only [checkAndReplaceLogo, h]

theorem checkAndReplaceLogo_without_id_witness :
    getLocationId "https://host/app/settings" = none ∧
    checkAndReplaceLogo hostBrowser "https://host/app/settings" overlapDoc
        ⟨acmeConfig, some "ABC123", fun _ => touchedImage⟩
      = ⟨acmeConfig, some "ABC123", fun _ => touchedImage⟩ :=
  ⟨by decide, checkAndReplaceLogo_without_id _ _ _ _ (by decide)⟩

/-- C8 (as stated, refuted). In the Acme scenario a candidate whose source is
already the Acme logo is left without the presentation properties; and when
the entry gives its logo by the path `/img/acme.png`, a candidate ends with
the resolved address `https://host/img/acme.png` as its source, not with the
`logoURL` of the entry. -/
theorem checkAndReplaceLogo_style_not_set :
    getLocationId "https://host/app/location/ABC123/dashboard" = some "ABC123" ∧
    findConfig acmeConfig "ABC123" = some ⟨"Acme", ["ABC123"], "https://x/acme.png"⟩ ∧
    findConfig acmePathConfig "ABC123" = some ⟨"Acme", ["ABC123"], "/img/acme.png"⟩ ∧
    1 ∈ findAllGhlLogos (overlapDoc 0) ∧
    ((checkAndReplaceLogo hostBrowser "https://host/app/location/ABC123/dashboard" overlapDoc
        ⟨acmeConfig, none, mixedDom⟩).dom 1).src = "https://x/acme.png" ∧
    ((checkAndReplaceLogo hostBrowser "https://host/app/location/ABC123/dashboard" overlapDoc
        ⟨acmeConfig, none, mixedDom⟩).dom 1).style.objectFit ≠ "contain" ∧
    ((checkAndReplaceLogo hostBrowser "https://host/app/location/ABC123/dashboard" overlapDoc
        ⟨acmePathConfig, none, mixedDom⟩).dom 1).src = "https://host/img/acme.png" ∧
    ((checkAndReplaceLogo hostBrowser "https://host/app/location/ABC123/dashboard" overlapDoc
        ⟨acmePathConfig, none, mixedDom⟩).dom 1).src ≠ "/img/acme.png" := by
  refine ⟨by decide, by decide, by decide, by decide, by decide, by decide, by decide,
    by decide⟩

/-- C8 (amended). At an address whose identifier is listed by some entry, with
at least one candidate on the page, after one evaluation every candidate whose
source differed from the `logoURL` of the first matching entry has as its
source the address the browser reads back for that `logoURL` (the `logoURL`
itself when it reads back as assigned) and has the six presentation properties
set; every candidate whose source was that `logoURL` already keeps its source
and the style it had. -/
theorem checkAndReplaceLogo_applies (b : Browser) (href : String) (doc : Nat → Query)
    (s : State) (id : String) (pre : List ConfigEntry) (e : ConfigEntry)
    (post : List ConfigEntry)
    (hid : getLocationId href = some id)
    (hcfg : s.config = pre ++ e :: post) (hin : id ∈ e.locationIds)
    (hfirst : ∀ e2 ∈ pre, id ∉ e2.locationIds)
    (hcand : findAllGhlLogos (doc 0) ≠ []) :
    ∀ i ∈ findAllGhlLogos (doc 0),
      ((s.dom i).src ≠ e.logoURL →
        ((checkAndReplaceLogo b href doc s).dom i).src = b.resolveUrl e.logoURL ∧
        ((checkAndReplaceLogo b href doc s).dom i).style.Normalized) ∧
      ((s.dom i).src = e.logoURL →
        ((checkAndReplaceLogo b href doc s).dom i).src = e.logoURL ∧
        ((checkAndReplaceLogo b href doc s).dom i).style = (s.dom i).style) ∧
      (b.resolveUrl e.logoURL = e.logoURL →
        ((checkAndReplaceLogo b href doc s).dom i).src = e.logoURL) := by
  intro i hi
  have hf := findConfig_of_first s.config id pre e post hcfg hin hfirst
  have hdom : (checkAndReplaceLogo b href doc s).dom i
      = (applyLogoStyles b (s.dom i) (.str e.logoURL)).1 := by
    simp only [checkAndReplaceLogo, hid, hf]
    exact replaceLogo_apply_of_candidates b _ _ doc _ hcand i hi
  rw [hdom]
  have hne : (s.dom i).src ≠ e.logoURL →
      (applyLogoStyles b (s.dom i) (.str e.logoURL)).1.src = b.resolveUrl e.logoURL ∧
      (applyLogoStyles b (s.dom i) (.str e.logoURL)).1.style.Normalized := by
    intro h
    have h2 : (JSVal.str e.logoURL).strictEqualsString (s.dom i).src = false := by
      rw [strictEqualsString_str]
      exact decide_eq_false (fun h3 => h h3.symm)
    refine ⟨?_, (applyLogoStyles_style_of_ne b _ _ h2).1⟩
    rw [applyLogoStyles_src, h2]
    rfl
  have heq : (s.dom i).src = e.logoURL →
      (applyLogoStyles b (s.dom i) (.str e.logoURL)).1.src = e.logoURL ∧
      (applyLogoStyles b (s.dom i) (.str e.logoURL)).1.style = (s.dom i).style := by
    intro h
    have h2 : (JSVal.str e.logoURL).strictEqualsString (s.dom i).src = true := by
      rw [strictEqualsString_str]
      exact decide_eq_true h.symm
    refine ⟨?_, applyLogoStyles_style_of_eq b _ _ h2⟩
    rw [applyLogoStyles_src, h2]
    exact h
  refine ⟨hne, heq, ?_⟩
  intro hr
  by_cases h : (s.dom i).src = e.logoURL
  · exact (heq h).1
  · rw [(hne h).1, hr]

theorem checkAndReplaceLogo_applies_witness :
    getLocationId "https://host/app/location/ABC123/dashboard" = some "ABC123" ∧
    findAllGhlLogos (overlapDoc 0) ≠ [] ∧
    (2 ∈ findAllGhlLogos (overlapDoc 0) ∧ (mixedDom 2).src ≠ "https://x/acme.png" ∧
      ((checkAndReplaceLogo hostBrowser "https://host/app/location/ABC123/dashboard"
          overlapDoc ⟨acmeConfig, none, mixedDom⟩).dom 2).src
        = hostBrowser.resolveUrl "https://x/acme.png" ∧
      ((checkAndReplaceLogo hostBrowser "https://host/app/location/ABC123/dashboard"
          overlapDoc ⟨acmeConfig, none, mixedDom⟩).dom 2).style.Normalized) ∧
    (1 ∈ findAllGhlLogos (overlapDoc 0) ∧ (mixedDom 1).src = "https://x/acme.png" ∧
      ((checkAndReplaceLogo hostBrowser "https://host/app/location/ABC123/dashboard"
          overlapDoc ⟨acmeConfig, none, mixedDom⟩).dom 1).src = "https://x/acme.png" ∧
      ((checkAndReplaceLogo hostBrowser "https://host/app/location/ABC123/dashboard"
          overlapDoc ⟨acmeConfig, none, mixedDom⟩).dom 1).style = (mixedDom 1).style) ∧
    (hostBrowser.resolveUrl "https://x/acme.png" = "https://x/acme.png" ∧
      ((checkAndReplaceLogo hostBrowser "https://host/app/location/ABC123/dashboard"
          overlapDoc ⟨acmeConfig, none, mixedDom⟩).dom 3).src = "https://x/acme.png") := by
  have hid : getLocationId "https://host/app/location/ABC123/dashboard" = some "ABC123" := by
    decide
  have hc : findAllGhlLogos (overlapDoc 0) ≠ [] := by decide
  have h1 : 1 ∈ findAllGhlLogos (overlapDoc 0) := by decide
  have h2 : 2 ∈ findAllGhlLogos (overlapDoc 0) := by decide
  have h3 : 3 ∈ findAllGhlLogos (overlapDoc 0) := by decide
  have hne : (mixedDom 2).src ≠ "https://x/acme.png" := by decide
  have heq : (mixedDom 1).src = "https://x/acme.png" := by decide
  have hr : hostBrowser.resolveUrl "https://x/acme.png" = "https://x/acme.png" := by decide
  have key := checkAndReplaceLogo_applies hostBrowser
    "https://host/app/location/ABC123/dashboard" overlapDoc ⟨acmeConfig, none, mixedDom⟩
    "ABC123" [] ⟨"Acme", ["ABC123"], "https://x/acme.png"⟩ [] hid rfl (by decide) (by simp) hc
  exact ⟨hid, hc, ⟨h2, hne, (key 2 h2).1 hne⟩, ⟨h1, heq, (key 1 h1).2.1 heq⟩,
    ⟨hr, (key 3 h3).2.2 hr⟩⟩

/-! ## The public functions on arbitrary configuration values -/

theorem any_str_iff (items : List JSVal) (id : String) :
    (items.any fun item =>
      match item with
      | .str s => decide (s = id)
      | _ => false) = true ↔ JSVal.str id ∈ items := by
  induction items with
  | nil => simp
  | cons x xs ih =>
    simp only [List.any_cons, Bool.or_eq_true, ih, List.mem_cons]
    constructor
    · rintro (h | h)
      · cases x <;> simp at h
        subst h
        exact Or.inl rfl
      · exact Or.inr h
    · rintro (h | h)
      · subst h
        simp
      · exact Or.inr h

theorem entryIncludes_obj (id : String) (fields : List (String × JSVal)) :
    entryIncludes id (.obj fields)
      = callIncludes ((fields.lookup "locationIds").getD .undefined) id := rfl

theorem entryIncludes_ok_iff (id : String) (e : JSVal) :
    (∃ r, entryIncludes id e = .ok r) ↔ HasLocationIds e := by
  unfold HasLocationIds
  cases e with
  | obj fields =>
    rw [entryIncludes_obj]
    cases hl : fields.lookup "locationIds" with
    | none => simp [callIncludes, hl]
    | some ids => cases ids <;> simp [callIncludes, hl]
  | _ => simp [entryIncludes, JSVal.getProp, callIncludes]

theorem entryIncludes_true_iff (id : String) (e : JSVal) :
    entryIncludes id e = .ok true ↔ ListsId id e := by
  unfold ListsId
  cases e with
  | obj fields =>
    rw [entryIncludes_obj]
    cases hl : fields.lookup "locationIds" with
    | none => simp [callIncludes, hl]
    | some ids =>
      cases ids with
      | arr items =>
        have h := any_str_iff items id
        simp only [callIncludes, Option.getD_some, Except.ok.injEq]
        rw [h]
        simp [hl]
      | str text => simp [callIncludes, hl]
      | _ => simp [callIncludes, hl]
  | _ => simp [entryIncludes, JSVal.getProp, callIncludes]

theorem searchSafe_nil (id : String) : SearchSafe id [] := by
  intro pre e post h
  simp at h

theorem searchSafe_cons (id : String) (x : JSVal) (xs : List JSVal) :
    SearchSafe id (x :: xs) ↔ HasLocationIds x ∧ (¬ ListsId id x → SearchSafe id xs) := by
  constructor
  · intro h
    refine ⟨h [] x xs rfl (by simp), ?_⟩
    intro hx pre e post h1 h2
    refine h (x :: pre) e post (by simp [h1]) ?_
    intro y hy
    rcases List.mem_cons.1 hy with h3 | h3
    · rw [h3]; exact hx
    · exact h2 y h3
  · rintro ⟨h1, h2⟩ pre e post h3 h4
    cases pre with
    | nil =>
      simp only [List.nil_append, List.cons.injEq] at h3
      rw [← h3.1]; exact h1
    | cons p pre1 =>
      simp only [List.cons_append, List.cons.injEq] at h3
      have hx : ¬ ListsId id x := by
        rw [h3.1]; exact h4 p (by simp)
      exact h2 hx pre1 e post h3.2 (fun y hy => h4 y (by simp [hy]))

theorem arrayFindJS_ok_iff (id : String) (items : List JSVal) :
    (∃ r, arrayFindJS id items = .ok r) ↔ SearchSafe id items := by
  induction items with
  | nil => simp [arrayFindJS, searchSafe_nil]
  | cons x xs ih =>
    rw [searchSafe_cons, ← entryIncludes_ok_iff id x, ← entryIncludes_true_iff id x, ← ih]
    simp only [arrayFindJS]
    cases hx : entryIncludes id x with
    | error err => simp
    | ok r => cases r <;> simp

theorem arrayFindJS_some (id : String) (items : List JSVal) (e : JSVal)
    (h : arrayFindJS id items = .ok (some e)) : ∃ fields, e = .obj fields := by
  induction items with
  | nil => simp [arrayFindJS] at h
  | cons x xs ih =>
    simp only [arrayFindJS] at h
    cases hx : entryIncludes id x with
    | error err => rw [hx] at h; cases h
    | ok r =>
      rw [hx] at h
      cases r with
      | true =>
        simp only [Except.ok.injEq, Option.some.injEq] at h
        obtain ⟨fields, _, h2, _⟩ := (entryIncludes_true_iff id x).1 hx
        exact ⟨fields, h ▸ h2⟩
      | false => exact ih h

theorem checkAndReplaceLogoJS_ok_iff (b : Browser) (href : String) (doc : Nat → Query)
    (s : Page) :
    (∃ r, checkAndReplaceLogoJS b href doc s = .ok r) ↔ EvaluationSafe href s.config := by
  unfold checkAndReplaceLogoJS EvaluationSafe
  cases hid : getLocationId href with
  | none => simp
  | some id =>
    simp only [Option.some.injEq, false_or, reduceCtorEq]
    cases hc : s.config with
    | arr items =>
      simp only [configFind, JSVal.arr.injEq]
      have hsafe := arrayFindJS_ok_iff id items
      cases hf : arrayFindJS id items with
      | error err =>
        rw [hf] at hsafe
        simp only [reduceCtorEq, exists_false, false_iff] at hsafe ⊢
        rintro ⟨id2, items2, h1, h2, h3⟩
        subst h1; subst h2
        exact hsafe h3
      | ok found =>
        rw [hf] at hsafe
        have hs : SearchSafe id items := hsafe.1 ⟨found, rfl⟩
        have hr : ∃ id2 items2, id2 = id ∧ items = items2 ∧ SearchSafe id2 items2 :=
          ⟨id, items, rfl, rfl, hs⟩
        cases found with
        | none => simpa using hr
        | some e =>
          obtain ⟨fields, he⟩ := arrayFindJS_some id items e hf
          subst he
          simpa [JSVal.truthy, JSVal.getProp] using hr
    | _ => simp [configFind]

theorem callIncludes_toJS (ids : List String) (id : String) :
    callIncludes (.arr (ids.map .str)) id = .ok (arrayIncludes ids id) := by
  simp only [callIncludes, Except.ok.injEq]
  induction ids with
  | nil => rfl
  | cons x xs ih =>
    simp only [List.map_cons, List.any_cons, arrayIncludes, ih]
    by_cases h : x = id <;> simp [h]

theorem arrayFindJS_toJS (config : List ConfigEntry) (id : String) :
    arrayFindJS id (config.map ConfigEntry.toJS)
      = .ok ((findConfig config id).map ConfigEntry.toJS) := by
  unfold findConfig
  induction config with
  | nil => rfl
  | cons e es ih =>
    have hp : entryIncludes id e.toJS = .ok (arrayIncludes e.locationIds id) := by
      rw [← callIncludes_toJS]
      simp [entryIncludes, ConfigEntry.toJS, JSVal.getProp, List.lookup]
    simp only [List.map_cons, arrayFindJS, hp, arrayFind]
    by_cases hc : arrayIncludes e.locationIds id = true
    · simp [hc]
    · have hc2 : arrayIncludes e.locationIds id = false := by simpa using hc
      simp [hc2, ih]

/-- On a well-formed configuration the evaluation on configuration values is
the evaluation `checkAndReplaceLogo`. -/
theorem checkAndReplaceLogoJS_toPage (b : Browser) (href : String) (doc : Nat → Query)
    (s : State) :
    checkAndReplaceLogoJS b href doc s.toPage = .ok (checkAndReplaceLogo b href doc s).toPage := by
  unfold checkAndReplaceLogoJS checkAndReplaceLogo State.toPage
  cases hid : getLocationId href with
  | none => rfl
  | some id =>
    simp only [configToJS, configFind, arrayFindJS_toJS]
    cases hf : findConfig s.config id with
    | none => rfl
    | some e =>
      simp [ConfigEntry.toJS, JSVal.truthy, JSVal.getProp, List.lookup, configToJS]

theorem searchSafe_of_idLists (id : String) (items : List JSVal)
    (h : ∀ e ∈ items, HasIdList e) : SearchSafe id items := by
  intro pre e post h1 _
  obtain ⟨fields, ids, h2, h3⟩ := h e (by rw [h1]; simp)
  exact ⟨fields, .arr ids, h2, h3, Or.inl ⟨ids, rfl⟩⟩

theorem evaluationSafe_of_idLists (href : String) (items : List JSVal)
    (h : ∀ e ∈ items, HasIdList e) : EvaluationSafe href (.arr items) := by
  unfold EvaluationSafe
  cases hid : getLocationId href with
  | none => exact Or.inl rfl
  | some id => exact Or.inr ⟨id, items, rfl, rfl, searchSafe_of_idLists id items h⟩

/-- C9 (as stated, refuted). With an entry that has no `locationIds`, or with
a replacement value that is not a list, the public functions throw a
`TypeError` at an address that carries a location identifier. -/
theorem public_functions_throw :
    refresh hostBrowser "https://host/app/location/ABC123/dashboard" overlapDoc
        ⟨.arr [.obj [("name", .str "Acme"), ("logoURL", .str "https://x/acme.png")]],
          none, mixedDom⟩
      = .error (.typeError "Cannot read properties of undefined") ∧
    addConfig hostBrowser "https://host/app/location/ABC123/dashboard" overlapDoc
        ⟨.arr [], none, mixedDom⟩
        (.obj [("name", .str "Acme"), ("logoURL", .str "https://x/acme.png")])
      = .error (.typeError "Cannot read properties of undefined") ∧
    updateConfig hostBrowser "https://host/app/location/ABC123/dashboard" overlapDoc
        ⟨.arr [], none, mixedDom⟩ (.obj [("ABC123", .str "https://x/acme.png")])
      = .error (.typeError "find is not a function") := by
  refine ⟨?_, ?_, ?_⟩ <;> rfl

/-- C9 (amended). The public functions complete normally exactly when the
evaluation is safe: `refresh` and `updateConfig` when the address carries no
location identifier or the configuration (for `updateConfig` the replacement)
is a list in which every entry the search examines, that is every entry not
preceded by one that lists the identifier, is an object whose `locationIds` is
a list or a string; `addConfig` when moreover the configuration was a list at
the call, the added entry counted in.  In particular they complete normally
for every address and every list of entries that each carry a `locationIds`
list, and on a well-formed configuration the evaluation is the one of
`checkAndReplaceLogo`. -/
theorem public_functions_complete (b : Browser) (href : String) (doc : Nat → Query) :
    (∀ (s : Page),
      (∃ r, refresh b href doc s = .ok r) ↔ EvaluationSafe href s.config) ∧
    (∀ (s : Page) (config : JSVal),
      (∃ r, addConfig b href doc s config = .ok r) ↔
        ∃ items, s.config = .arr items ∧ EvaluationSafe href (.arr (items ++ [config]))) ∧
    (∀ (s : Page) (newConfig : JSVal),
      (∃ r, updateConfig b href doc s newConfig = .ok r) ↔ EvaluationSafe href newConfig) ∧
    (∀ (items : List JSVal) (entry : JSVal) (cur : Option String) (dom : Dom),
      (∀ e ∈ items, HasIdList e) → HasIdList entry →
        (∃ r, refresh b href doc ⟨.arr items, cur, dom⟩ = .ok r) ∧
        (∃ r, addConfig b href doc ⟨.arr items, cur, dom⟩ entry = .ok r) ∧
        (∀ old, ∃ r, updateConfig b href doc ⟨old, cur, dom⟩ (.arr items) = .ok r)) ∧
    (∀ (s : State),
      refresh b href doc s.toPage = .ok (checkAndReplaceLogo b href doc s).toPage) := by
  have hrefresh : ∀ (s : Page),
      (∃ r, refresh b href doc s = .ok r) ↔ EvaluationSafe href s.config :=
    fun s => checkAndReplaceLogoJS_ok_iff b href doc s
  have hadd : ∀ (s : Page) (config : JSVal),
      (∃ r, addConfig b href doc s config = .ok r) ↔
        ∃ items, s.config = .arr items ∧ EvaluationSafe href (.arr (items ++ [config])) := by
    intro s config
    unfold addConfig
    cases hc : s.config with
    | arr items =>
      simp only [JSVal.arr.injEq, exists_eq_left']
      exact checkAndReplaceLogoJS_ok_iff b href doc _
    | _ => simp
  have hupdate : ∀ (s : Page) (newConfig : JSVal),
      (∃ r, updateConfig b href doc s newConfig = .ok r) ↔ EvaluationSafe href newConfig :=
    fun s newConfig => checkAndReplaceLogoJS_ok_iff b href doc _
  refine ⟨hrefresh, hadd, hupdate, ?_, fun s => checkAndReplaceLogoJS_toPage b href doc s⟩
  intro items entry cur dom hitems hentry
  refine ⟨(hrefresh _).2 (evaluationSafe_of_idLists href items hitems), ?_, ?_⟩
  · refine (hadd _ _).2 ⟨items, rfl, evaluationSafe_of_idLists href _ ?_⟩
    intro e he
    rcases List.mem_append.1 he with h | h
    · exact hitems e h
    · rw [List.mem_singleton] at h
      rw [h]; exact hentry
  · intro old
    exact (hupdate _ _).2 (evaluationSafe_of_idLists href items hitems)

theorem public_functions_complete_witness :
    (∀ e ∈ [JSVal.obj [("locationIds", .arr [.str "ABC123"])]], HasIdList e) ∧
    HasIdList (.obj [("locationIds", .arr [.str "XYZ999"]), ("logoURL", .num 7)]) ∧
    (∃ r, refresh hostBrowser "https://host/app/location/ABC123/dashboard" overlapDoc
      ⟨.arr [.obj [("locationIds", .arr [.str "ABC123"])]], none, mixedDom⟩ = .ok r) ∧
    (∃ r, addConfig hostBrowser "https://host/app/location/ABC123/dashboard" overlapDoc
      ⟨.arr [.obj [("locationIds", .arr [.str "ABC123"])]], none, mixedDom⟩
      (.obj [("locationIds", .arr [.str "XYZ999"]), ("logoURL", .num 7)]) = .ok r) ∧
    (∃ r, updateConfig hostBrowser "https://host/app/location/ABC123/dashboard" overlapDoc
      ⟨.null, none, mixedDom⟩ (.arr [.obj [("locationIds", .arr [.str "ABC123"])]])
        = .ok r) := by
  have h1 : ∀ e ∈ [JSVal.obj [("locationIds", .arr [.str "ABC123"])]], HasIdList e := by
    intro e he
    rw [List.mem_singleton] at he
    exact ⟨[("locationIds", .arr [.str "ABC123"])], [.str "ABC123"], he, rfl⟩
  have h2 : HasIdList (.obj [("locationIds", .arr [.str "XYZ999"]), ("logoURL", .num 7)]) :=
    ⟨_, [.str "XYZ999"], rfl, rfl⟩
  have key := (public_functions_complete hostBrowser
    "https://host/app/location/ABC123/dashboard" overlapDoc).2.2.2.1
    [.obj [("locationIds", .arr [.str "ABC123"])]]
    (.obj [("locationIds", .arr [.str "XYZ999"]), ("logoURL", .num 7)]) none mixedDom h1 h2
  exact ⟨h1, h2, key.1, key.2.1, key.2.2 .null⟩

end LogoSwitcher
